import Mathlib

/-!
Shallow embedding of the iqoo-debug report pipeline.

Times are absolute epoch milliseconds, modelled as `Int`.  JavaScript
numbers are modelled as `ℚ` (all values produced by the embedded code are
finite, so the `Number.isFinite` guards of the source hold by
construction and are noted where they occur).

Each definition is translated from the repository source; the source file
and function are named in the doc comment.
-/

namespace IqooDebug

/-- `clamp01` from `analyzer.js` (src/unnamed/part_009): clamps to `[0, 1]`.
The `Number.isFinite` guard is vacuous over `ℚ`. -/
def clamp01 (v : ℚ) : ℚ :=
  if v < 0 then 0 else if v > 1 then 1 else v

/-- `normalize(value, min, max)` from `analyzer.js`: linear renormalisation,
0 when the range is empty.  The `Number.isFinite(value)` guard is modelled
by the `Option` wrapper at call sites (`normalizeOpt`). -/
def normalize (value min max : ℚ) : ℚ :=
  if max ≤ min then 0 else clamp01 ((value - min) / (max - min))

/-- `normalize` applied to a possibly-`null` JS number: `Number.isFinite(null)`
is false, so the source returns 0. -/
def normalizeOpt (value : Option ℚ) (min max : ℚ) : ℚ :=
  match value with
  | none => 0
  | some v => normalize v min max

/-- `average(numbers)` from `analyzer.js`; over `ℚ` every element is finite,
so the filter keeps all elements. -/
def average (numbers : List ℚ) : ℚ :=
  if numbers.length = 0 then 0 else numbers.sum / numbers.length

/-- JS `Math.round`: round half toward positive infinity. -/
def jsRound (x : ℚ) : Int :=
  Int.floor (x + 1/2)

/-- JS `a || b` on a nullable number: `null` and `0` both fall through to `b`. -/
def jsOr (v : Option ℚ) (d : ℚ) : ℚ :=
  match v with
  | none => d
  | some x => if x = 0 then d else x

/-- `computeScore(overlap, leadLag, intensity)` from `analyzer.js`. -/
def computeScore (overlap leadLag intensity : ℚ) : ℚ :=
  clamp01 (1/2 * overlap + 3/10 * leadLag + 1/5 * intensity)

/-- Confidence / level vocabulary of the cause-ranking engine. -/
inductive Level where
  | low
  | medium
  | high
deriving DecidableEq, Repr

/-- `scoreToLevel(score)` from `analyzer.js`. -/
def scoreToLevel (score : ℚ) : Level :=
  if score ≥ 7/10 then .high
  else if score ≥ 45/100 then .medium
  else .low

/-- `lowerBound(arr, target)` from `shared/stats.js`: binary search for the
first index whose element is not `< target`.  The loop is embedded with
explicit fuel; the range `r - l` strictly shrinks each iteration, so
`arr.length + 1` steps always suffice. -/
def lowerBoundGo (arr : List Int) (target : Int) : Nat → Nat → Nat → Nat
  | 0, l, _ => l
  | fuel + 1, l, r =>
    if l < r then
      let mid := (l + r) / 2
      if arr.getD mid 0 < target then lowerBoundGo arr target fuel (mid + 1) r
      else lowerBoundGo arr target fuel l mid
    else l

/-- `lowerBound` entry point from `shared/stats.js`. -/
def lowerBound (arr : List Int) (target : Int) : Nat :=
  lowerBoundGo arr target (arr.length + 1) 0 arr.length

/-- `countInRange(sortedArr, start, end)` from `shared/stats.js`. -/
def countInRange (sortedArr : List Int) (start stop : Int) : Nat :=
  if sortedArr.length = 0 ∨ stop < start then 0
  else
    let i := lowerBound sortedArr start
    let j := lowerBound sortedArr (stop + 1)
    j - i

end IqooDebug

namespace IqooDebug.EventStore

/-- One backward step of the near-duplicate scan in `createEventStore.addEvent`
(`event-store.js`, src/unnamed/part_013).  The list is the per-type
timestamp array traversed from the most recent entry backwards:
return `false` (reject) when a prior event lies within the tolerance,
stop scanning (`break`, accept) when the candidate is more than the
tolerance after the scanned entry. -/
def dedupScanOk (tol ms : Int) : List Int → Bool
  | [] => true
  | t :: rest =>
    if (ms - t).natAbs ≤ tol.toNat then false
    else if ms - t > tol then true
    else dedupScanOk tol ms rest

/-- `addEvent(type, ts, source, rawLine, avoidNearDuplicateMs)` restricted to
one event type: given the per-type timestamp list (insertion order) decide
acceptance and return the updated list.  `event-store.js`. -/
def addEvent (list : List Int) (ts : Int) (avoidNearDuplicateMs : Int) :
    Bool × List Int :=
  if avoidNearDuplicateMs > 0 ∧ ¬ dedupScanOk avoidNearDuplicateMs ts list.reverse then
    (false, list)
  else
    (true, list ++ [ts])

/-- `parseLogcatFile` (`logcat-parser.js`, src/unnamed/part_012) inserts every
classified event with `store.addEvent(t, ts, 'logcat', line)` — the
`avoidNearDuplicateMs` parameter is left at its default `0`. -/
def logcatAddEvent (list : List Int) (ts : Int) : Bool × List Int :=
  addEvent list ts 0

/-- `addWifiTransitions` (`dumpsys-event-parser.js`) inserts `ROAM` events
with tolerance `3000`. -/
def dumpsysAddRoam (list : List Int) (ts : Int) : Bool × List Int :=
  addEvent list ts 3000

end IqooDebug.EventStore

namespace IqooDebug.StreamPhase

/-- Raw stream window fields consumed by `scoreWindow`
(`stream-phase-detector.js`, src/unnamed/part_010, current generation). -/
structure RawWindow where
  startTs : Int
  endTs : Int
  hasStrongStart : Bool
  hasStartMarker : Bool
  hasEndMarker : Bool
  activityCount : Nat
deriving DecidableEq, Repr

/-- Stream-window modes accepted by the report CLI. -/
inductive Mode where
  | auto
  | strict
  | all
deriving DecidableEq, Repr

/-- `MIN_VALID_DURATION_MS` from `stream-phase-detector.js`. -/
def MIN_VALID_DURATION_MS : Int := 20000

/-- `MIN_VALID_ACTIVITY_COUNT` from `stream-phase-detector.js`. -/
def MIN_VALID_ACTIVITY_COUNT : Nat := 6

/-- The `score` component of `scoreWindow(window, mode)`. -/
def scoreWindowScore (w : RawWindow) : ℚ :=
  let startScore : ℚ := if w.hasStartMarker then 1/5 else 0
  let strongScore : ℚ := if w.hasStrongStart then 2/5 else 0
  let activityScore : ℚ := min (3/10) ((w.activityCount : ℚ) / 20)
  let endScore : ℚ := if w.hasEndMarker then 1/10 else 0
  min 1 (startScore + strongScore + activityScore + endScore)

/-- The `baseValid` conjunction of `scoreWindow(window, mode)`. -/
def scoreWindowBaseValid (w : RawWindow) : Bool :=
  let durationMs := max 0 (w.endTs - w.startTs)
  w.hasStartMarker
    && (w.hasStrongStart || decide (w.activityCount ≥ MIN_VALID_ACTIVITY_COUNT))
    && decide (durationMs ≥ MIN_VALID_DURATION_MS)

/-- The `valid` component of `scoreWindow(window, mode)`:
strict mode additionally requires `hasStrongStart`; every other mode
(including `all`) uses `baseValid` unchanged. -/
def scoreWindowValid (w : RawWindow) (mode : Mode) : Bool :=
  if mode = Mode.strict then scoreWindowBaseValid w && w.hasStrongStart
  else scoreWindowBaseValid w

/-- Fields of a valid stream window read by `buildEffectiveWindows`.
Times are rational milliseconds (the Date-constructor truncation of
fractional milliseconds is not modelled; buffers are integral seconds in
practice). -/
structure ValidWindow where
  id : Nat
  startTs : ℚ
  endTs : ℚ
deriving DecidableEq, Repr

/-- An expanded (pre-merge) window. -/
structure EffWindow where
  startTs : ℚ
  endTs : ℚ
  baseWindowId : Nat
deriving DecidableEq, Repr

/-- An emitted effective window. -/
structure EffOut where
  id : Nat
  startTs : ℚ
  endTs : ℚ
deriving DecidableEq, Repr

/-- `clipDate(date, minDate, maxDate)` from `stream-phase-detector.js`. -/
def clipDate (date : ℚ) (minDate maxDate : Option ℚ) : ℚ :=
  match minDate with
  | some m =>
    if date < m then m
    else
      match maxDate with
      | some mx => if date > mx then mx else date
      | none => date
  | none =>
    match maxDate with
    | some mx => if date > mx then mx else date
    | none => date

/-- The per-window expansion step of `buildEffectiveWindows`
(`stream-phase-detector.js` lines 110-118). -/
def expandWindow (preMs postMs skewMs : ℚ) (minTs maxTs : Option ℚ)
    (w : ValidWindow) : EffWindow :=
  { startTs := clipDate (w.startTs - preMs - skewMs) minTs maxTs,
    endTs := clipDate (w.endTs + postMs + skewMs) minTs maxTs,
    baseWindowId := w.id }

/-- Stable insertion by `startTs` (JS sort comparator
`a.startTs - b.startTs`). -/
def insertByStart (x : EffWindow) : List EffWindow → List EffWindow
  | [] => [x]
  | y :: t => if x.startTs < y.startTs then x :: y :: t else y :: insertByStart x t

/-- Sort the expanded windows by `startTs`. -/
def sortByStartTs (l : List EffWindow) : List EffWindow :=
  l.foldr insertByStart []

/-- The expanded, epoch-clipped, degenerate-filtered, sorted window list of
`buildEffectiveWindows` (lines 110-119). -/
def expandedWindows (validWindows : List ValidWindow)
    (preMs postMs skewMs : ℚ) (minTs maxTs : Option ℚ) : List EffWindow :=
  sortByStartTs
    ((validWindows.map (expandWindow preMs postMs skewMs minTs maxTs)).filter
      (fun w => w.startTs ≤ w.endTs))

/-- The merge loop of `buildEffectiveWindows` (lines 122-131): `last` is the
window currently being grown. -/
def mergeGo (last : EffWindow) : List EffWindow → List EffWindow
  | [] => [last]
  | cur :: rest =>
    if cur.startTs ≤ last.endTs then
      mergeGo
        { last with
          endTs := if cur.endTs > last.endTs then cur.endTs else last.endTs }
        rest
    else last :: mergeGo cur rest

/-- The merged (pre-id-assignment) effective windows. -/
def mergedWindows (validWindows : List ValidWindow)
    (preMs postMs skewMs : ℚ) (minTs maxTs : Option ℚ) : List EffWindow :=
  match expandedWindows validWindows preMs postMs skewMs minTs maxTs with
  | [] => []
  | first :: rest => mergeGo first rest

/-- `buildEffectiveWindows(validWindows, opts)` from
`stream-phase-detector.js` (lines 98-137): buffers are clamped to
nonnegative milliseconds, windows expanded and clipped to
`[minTs, maxTs]`, sorted, merged, and numbered. -/
def buildEffectiveWindows (validWindows : List ValidWindow)
    (preBufferSec postBufferSec clockSkewToleranceSec : ℚ)
    (minTs maxTs : Option ℚ) : List EffOut :=
  match validWindows with
  | [] => []
  | _ =>
    let preMs := max 0 (preBufferSec * 1000)
    let postMs := max 0 (postBufferSec * 1000)
    let skewMs := max 0 (clockSkewToleranceSec * 1000)
    (mergedWindows validWindows preMs postMs skewMs minTs maxTs).enum.map
      (fun p => { id := p.1 + 1, startTs := p.2.startTs, endTs := p.2.endTs })

end IqooDebug.StreamPhase

namespace IqooDebug.Ping

/-- Timestamp provenance of a ping sample (`ping-parser.js`,
src/unnamed/part_014). -/
inductive TsSource where
  | log_prefix_epoch
  | ping_D
  | seq_estimated
  | unknown
deriving DecidableEq, Repr

/-- Sample status. -/
inductive Status where
  | reply
  | no_reply
deriving DecidableEq, Repr

/-- One parsed ping sample (`result.samples` entry in `ping-parser.js`). -/
structure PingSample where
  ts : Int
  seq : Option Int
  success : Bool
  latencyMs : Option ℚ
  status : Status
  tsSource : TsSource
deriving DecidableEq, Repr

/-- Stable insertion into an ascending list (JS `sort((a, b) => a - b)`). -/
def insertAsc (x : ℚ) : List ℚ → List ℚ
  | [] => [x]
  | y :: t => if x < y then x :: y :: t else y :: insertAsc x t

/-- Ascending sort of the latency array, as `ping-parser.js` does before
taking the median. -/
def sortAsc (l : List ℚ) : List ℚ :=
  l.foldr insertAsc []

/-- `median(sortedArr)` from `shared/stats.js`.  The repository delegates to
the external `simple-statistics` `quantileSorted` at p = 0.5, which is not
part of this repository; modelled from that library's documented behaviour:
`null` on an empty array, the middle element for odd length, and the mean
of the two middle elements for even length. -/
def median (sortedArr : List ℚ) : Option ℚ :=
  match sortedArr with
  | [] => none
  | _ =>
    some (if sortedArr.length % 2 = 0 then
      (sortedArr.getD (sortedArr.length / 2 - 1) 0
        + sortedArr.getD (sortedArr.length / 2) 0) / 2
    else sortedArr.getD (sortedArr.length / 2) 0)

/-- `successSamples` filter from `parsePingHostLog`
(`ping-parser.js` line 862): success flag set and a finite latency. -/
def successSamples (samples : List PingSample) : List PingSample :=
  samples.filter (fun x => x.success && x.latencyMs.isSome)

/-- `thresholdMs = Math.max(15, (baseline || 0) + 8)` computed from the
sorted success latencies (`ping-parser.js` lines 863-867); `none` when
there is no successful sample. -/
def highLatencyThreshold (samples : List PingSample) : Option ℚ :=
  match successSamples samples with
  | [] => none
  | ss =>
    let sortedLatency := sortAsc (ss.map (fun x => x.latencyMs.getD 0))
    let baseline := jsOr (median sortedLatency) 0
    some (max 15 (baseline + 8))

/-- `highSamples = successSamples.filter((x) => x.latencyMs >= thresholdMs)`
(`ping-parser.js` line 869). -/
def highLatencySamples (samples : List PingSample) : List PingSample :=
  match highLatencyThreshold samples with
  | none => []
  | some t => (successSamples samples).filter (fun x => t ≤ x.latencyMs.getD 0)

/-- Projection of a high-latency sample to the fields
`buildHighLatencyBursts` reads (`ts`, `seq`, `latencyMs`); on the
high-latency list `latencyMs` is always present. -/
structure HLSample where
  ts : Int
  seq : Option Int
  latencyMs : ℚ
deriving DecidableEq, Repr, Inhabited

/-- Emitted burst record (`ping-parser.js` `buildHighLatencyBursts`). -/
structure Burst where
  startTs : Int
  endTs : Int
  durationMs : Int
  count : Nat
  startSeq : Option Int
  endSeq : Option Int
  maxLatencyMs : ℚ
  avgLatencyMs : ℚ
deriving DecidableEq, Repr

/-- The in-progress burst accumulator (`cur` in `buildHighLatencyBursts`). -/
structure CurAcc where
  startTs : Int
  endTs : Int
  count : Nat
  startSeq : Option Int
  endSeq : Option Int
  maxLatencyMs : ℚ
  sumLatencyMs : ℚ
deriving DecidableEq, Repr

/-- Opening a new burst accumulator from one sample. -/
def initAcc (s : HLSample) : CurAcc :=
  { startTs := s.ts, endTs := s.ts, count := 1, startSeq := s.seq,
    endSeq := s.seq, maxLatencyMs := s.latencyMs, sumLatencyMs := s.latencyMs }

/-- Extending the accumulator with the next in-burst sample. -/
def extendAcc (c : CurAcc) (s : HLSample) : CurAcc :=
  { startTs := c.startTs, endTs := s.ts, count := c.count + 1,
    startSeq := c.startSeq, endSeq := s.seq,
    maxLatencyMs := max c.maxLatencyMs s.latencyMs,
    sumLatencyMs := c.sumLatencyMs + s.latencyMs }

/-- Emitting the accumulator as a burst record. -/
def finishBurst (c : CurAcc) : Burst :=
  { startTs := c.startTs, endTs := c.endTs, durationMs := c.endTs - c.startTs,
    count := c.count, startSeq := c.startSeq, endSeq := c.endSeq,
    maxLatencyMs := c.maxLatencyMs, avgLatencyMs := c.sumLatencyMs / c.count }

/-- The sample loop of `buildHighLatencyBursts`. -/
def buildGo (maxGapMs : Int) (cur : CurAcc) : List HLSample → List Burst
  | [] => [finishBurst cur]
  | s :: rest =>
    if s.ts - cur.endTs > maxGapMs then
      finishBurst cur :: buildGo maxGapMs (initAcc s) rest
    else
      buildGo maxGapMs (extendAcc cur s) rest

/-- `buildHighLatencyBursts(highSamples, maxGapMs = 1200)` from
`ping-parser.js`. -/
def buildHighLatencyBursts (highSamples : List HLSample) (maxGapMs : Int := 1200) :
    List Burst :=
  match highSamples with
  | [] => []
  | s :: rest => buildGo maxGapMs (initAcc s) rest

/-- Specification helper: split the sample list into maximal runs at gaps
exceeding `maxGapMs`; `pending` is the current run and `lastS` its last
element. -/
def chunkGo (maxGapMs : Int) (pending : List HLSample) (lastS : HLSample) :
    List HLSample → List (List HLSample)
  | [] => [pending]
  | s :: rest =>
    if s.ts - lastS.ts > maxGapMs then
      pending :: chunkGo maxGapMs [s] s rest
    else
      chunkGo maxGapMs (pending ++ [s]) s rest

/-- Specification helper: the gap-based chunking of a sample list. -/
def gapChunks (maxGapMs : Int) : List HLSample → List (List HLSample)
  | [] => []
  | s :: rest => chunkGo maxGapMs [s] s rest

/-- Maximum latency over a chunk, seeded at the first sample as in the
accumulator. -/
def chunkMax : List HLSample → ℚ
  | [] => 0
  | h :: t => t.foldl (fun m s => max m s.latencyMs) h.latencyMs

/-- First sample of a chunk (`default` on the empty list, which never
occurs in a chunk). -/
def chunkHead : List HLSample → HLSample
  | [] => default
  | h :: _ => h

/-- Last sample of a chunk. -/
def chunkLast : List HLSample → HLSample
  | [] => default
  | [x] => x
  | _ :: b :: t => chunkLast (b :: t)

/-- Burst record determined by one chunk of samples. -/
def mkBurst (c : List HLSample) : Burst :=
  { startTs := (chunkHead c).ts, endTs := (chunkLast c).ts,
    durationMs := (chunkLast c).ts - (chunkHead c).ts,
    count := c.length, startSeq := (chunkHead c).seq,
    endSeq := (chunkLast c).seq,
    maxLatencyMs := chunkMax c,
    avgLatencyMs := (c.map (fun s => s.latencyMs)).sum / c.length }

/-- Accumulator value determined by a (nonempty) chunk of samples. -/
def accOf (c : List HLSample) : CurAcc :=
  { startTs := (chunkHead c).ts, endTs := (chunkLast c).ts,
    count := c.length, startSeq := (chunkHead c).seq,
    endSeq := (chunkLast c).seq, maxLatencyMs := chunkMax c,
    sumLatencyMs := (c.map (fun s => s.latencyMs)).sum }

/-- Running parser accumulators of `parsePingHostLog`
(`ping-parser.js`, src/unnamed/part_014).  The `firstTs`/`lastTs`/
`tsSourceCounts`/`phaseCounts` bookkeeping and the per-sample
phase/inSession annotation (which queries the stream detector) are
claim-irrelevant and omitted; the fields below are the ones the claims
constrain. -/
structure ParserState where
  derivedSeq : Int
  skippedNoTsCount : Nat
  successCount : Nat
  failureCount : Nat
  samples : List PingSample
deriving DecidableEq, Repr

/-- `pushSample` from `parsePingHostLog` (lines 661-695): an absent
timestamp is counted under `skippedNoTsCount` and produces no sample;
otherwise the success/failure counters advance and the sample is appended
with `latencyMs` kept only for successful samples with a finite latency. -/
def pushSample (st : ParserState) (ts : Option Int) (seq : Option Int)
    (success : Bool) (latencyMs : Option ℚ) (status : Status)
    (tsSource : TsSource) : ParserState :=
  match ts with
  | none => { st with skippedNoTsCount := st.skippedNoTsCount + 1 }
  | some t =>
    { st with
      successCount := if success then st.successCount + 1 else st.successCount
      failureCount := if success then st.failureCount else st.failureCount + 1
      samples := st.samples ++
        [{ ts := t, seq := seq, success := success,
           latencyMs := if success ∧ latencyMs.isSome then latencyMs else none,
           status := status, tsSource := tsSource }] }

/-- Regex outcomes for one line of the device (non-`host_side_ping`)
dialect, abstracting `LOG_PREFIX_REGEX`, `BRACKET_TS_REGEX`,
`SUCCESS_WITH_SEQ_REGEX`, `SUCCESS_NO_SEQ_REGEX` and `SEQ_ONLY_REGEX` of
`ping-parser.js`. -/
structure DeviceLine where
  prefixEpochMs : Option Int
  bracketSec : Option ℚ
  seqTime : Option (Int × ℚ)
  timeOnly : Option ℚ
  seqOnly : Option Int
deriving DecidableEq, Repr

/-- Device-dialect handling of one line, `parsePingHostLog` lines 787-832:
latency/seq extraction with the running `derivedSeq`, then timestamp
selection (uniform prefix epoch, then `ping -D` bracket, then
capture-start estimate), then `pushSample`. -/
def deviceLineStep (captureStartTs : Option Int) (intervalSec : ℚ)
    (st : ParserState) (line : DeviceLine) : ParserState :=
  let successWithSeqMatch := line.seqTime
  let successNoSeqMatch := if successWithSeqMatch.isSome then none else line.timeOnly
  let seqMatch : Option Int :=
    match successWithSeqMatch with
    | some (s, _) => some s
    | none => line.seqOnly
  if seqMatch = none ∧ successNoSeqMatch = none then st
  else
    let latencyMs : Option ℚ :=
      match successWithSeqMatch with
      | some (_, t) => some t
      | none => successNoSeqMatch
    let seqDerived : Option Int × Int :=
      match seqMatch, latencyMs with
      | none, some _ => (some (st.derivedSeq + 1), st.derivedSeq + 1)
      | some s, _ => (some s, max st.derivedSeq s)
      | none, none => (none, st.derivedSeq)
    let seq := seqDerived.1
    let success := latencyMs.isSome
    let tsPair : Option Int × TsSource :=
      match line.prefixEpochMs with
      | some e => (some e, TsSource.log_prefix_epoch)
      | none =>
        match line.bracketSec with
        | some sec => (some (jsRound (sec * 1000)), TsSource.ping_D)
        | none => (none, TsSource.unknown)
    let tsPair2 : Option Int × TsSource :=
      match tsPair.1, captureStartTs, seq with
      | none, some cs, some sq =>
        (some (cs + jsRound (((sq : ℚ) - 1) * intervalSec * 1000)),
          TsSource.seq_estimated)
      | t, _, _ => (t, tsPair.2)
    pushSample { st with derivedSeq := seqDerived.2 } tsPair2.1 seq success
      latencyMs (if success then Status.reply else Status.no_reply) tsPair2.2

/-- One `SENT` record of the host-side (`nping`) dialect
(`ping-parser.js` lines 725-733). -/
structure SentRecord where
  seq : Option Int
  epochMs : Option Int
  elapsedMs : Option Int
  ts : Option Int
  tsSource : TsSource
  matched : Bool
deriving DecidableEq, Repr

/-- `computeHostSideDeltaMs(sentRecord, rcvdElapsedMs, rcvdEpochMs)`
(`ping-parser.js` lines 438-446). -/
def computeHostSideDeltaMs (sent : SentRecord)
    (rcvdElapsedMs rcvdEpochMs : Option Int) : Option Int :=
  match sent.elapsedMs, rcvdElapsedMs with
  | some se, some re => some (re - se)
  | _, _ =>
    match sent.epochMs, rcvdEpochMs with
    | some sep, some rep => some (rep - sep)
    | _, _ => none

/-- The host-side match state: `hostSideSentRecords` (by index) plus the
`hostSideSentBySeq` map (seq to index; `Map.set` overwrites, and the
`=== best.sent` pointer test becomes an index comparison). -/
structure HostSideState where
  records : List SentRecord
  bySeq : List (Int × Nat)
deriving DecidableEq, Repr

/-- `Map.get`: the per-seq entry (keys are unique because `set` overwrites). -/
def assocGet (m : List (Int × Nat)) (k : Int) : Option Nat :=
  (m.find? (fun p => p.1 = k)).map (fun p => p.2)

/-- `Map.delete`. -/
def assocDelete (m : List (Int × Nat)) (k : Int) : List (Int × Nat) :=
  m.filter (fun p => ¬ p.1 = k)

/-- `Map.set` (overwrite or append). -/
def assocSet (m : List (Int × Nat)) (k : Int) (v : Nat) : List (Int × Nat) :=
  if (m.find? (fun p => p.1 = k)).isSome then
    m.map (fun p => if p.1 = k then (k, v) else p)
  else m ++ [(k, v)]

/-- The `bestByTime` backward scan of `pickHostSideSentMatch`
(`ping-parser.js` lines 469-478); the input is the indexed record list
reversed so the most recent SENT comes first. -/
def scanByTime (rcvdElapsedMs rcvdEpochMs : Option Int) (maxGapMs : Int) :
    List (Nat × SentRecord) → Option (Nat × Int)
  | [] => none
  | (i, sent) :: rest =>
    if sent.matched then scanByTime rcvdElapsedMs rcvdEpochMs maxGapMs rest
    else
      match computeHostSideDeltaMs sent rcvdElapsedMs rcvdEpochMs with
      | none => scanByTime rcvdElapsedMs rcvdEpochMs maxGapMs rest
      | some delta =>
        if delta < 0 then scanByTime rcvdElapsedMs rcvdEpochMs maxGapMs rest
        else if delta > maxGapMs then none
        else some (i, delta)

/-- The `let bestDirect` same-seq candidate of `pickHostSideSentMatch`
(`ping-parser.js` lines 448-467). -/
def pickBestDirect (seq : Option Int) (rcvdElapsedMs rcvdEpochMs : Option Int)
    (st : HostSideState) (maxGapMs : Int) : Option (Nat × Int) :=
  match seq with
  | none => none
  | some sq =>
    match assocGet st.bySeq sq with
    | none => none
    | some idx =>
      match st.records.get? idx with
      | none => none
      | some direct =>
        if direct.matched then none
        else
          match computeHostSideDeltaMs direct rcvdElapsedMs rcvdEpochMs with
          | none => none
          | some d => if 0 ≤ d ∧ d ≤ maxGapMs then some (idx, d) else none

/-- The `let bestByTime` of `pickHostSideSentMatch`. -/
def pickBestByTime (rcvdElapsedMs rcvdEpochMs : Option Int)
    (st : HostSideState) (maxGapMs : Int) : Option (Nat × Int) :=
  scanByTime rcvdElapsedMs rcvdEpochMs maxGapMs st.records.enum.reverse

/-- The `best` selection of `pickHostSideSentMatch`. -/
def pickBest (bestDirect bestByTime : Option (Nat × Int)) :
    Option (Nat × Int) :=
  match bestDirect, bestByTime with
  | some bd, some bt => if bt.2 ≤ bd.2 then some bt else some bd
  | some bd, none => some bd
  | none, some bt => some bt
  | none, none => none

/-- `pickHostSideSentMatch` (`ping-parser.js` lines 448-495): prefer the
time-nearest candidate when its delta does not exceed the same-seq
candidate's; the chosen SENT is marked `matched` and dropped from the
per-seq map when the map still points at it.  Returns the chosen
`(index, deltaMs)` and the updated state. -/
def pickHostSideSentMatch (seq : Option Int)
    (rcvdElapsedMs rcvdEpochMs : Option Int) (st : HostSideState)
    (maxGapMs : Int) : Option (Nat × Int) × HostSideState :=
  match pickBest (pickBestDirect seq rcvdElapsedMs rcvdEpochMs st maxGapMs)
      (pickBestByTime rcvdElapsedMs rcvdEpochMs st maxGapMs) with
  | none => (none, st)
  | some p =>
    let records2 := st.records.enum.map
      (fun q => if q.1 = p.1 then { q.2 with matched := true } else q.2)
    let bySeq2 :=
      match (st.records.get? p.1).bind (fun r => r.seq) with
      | some sq =>
        if assocGet st.bySeq sq = some p.1 then assocDelete st.bySeq sq
        else st.bySeq
      | none => st.bySeq
    (some p, { records := records2, bySeq := bySeq2 })

/-- `HOST_SIDE_MAX_LATENCY_MS` from `ping-parser.js`. -/
def HOST_SIDE_MAX_LATENCY_MS : Int := 60000

/-- The `RCVD` branch of the host-side dialect (`ping-parser.js` lines
739-782): pick a SENT match, accept its delta as the latency only when it
does not exceed 60000 ms, and always push a successful `reply` sample
(the timestamp falls back to a capture-start estimate when the prefix is
absent). -/
def hostSideRcvdStep (captureStartTs : Option Int) (intervalSec : ℚ)
    (prefixEpochMs : Option Int) (rcvdElapsedSec : ℚ) (rcvdSeq : Option Int)
    (hst : HostSideState) (st : ParserState) (maxGapMs : Int) :
    HostSideState × ParserState :=
  let rcvdElapsedMs : Option Int := some (jsRound (rcvdElapsedSec * 1000))
  let tsPair : Option Int × TsSource :=
    match prefixEpochMs with
    | some e => (some e, TsSource.log_prefix_epoch)
    | none =>
      match captureStartTs, rcvdSeq with
      | some cs, some sq =>
        (some (cs + jsRound (((sq : ℚ) - 1) * intervalSec * 1000)),
          TsSource.seq_estimated)
      | _, _ => (none, TsSource.unknown)
  let picked := pickHostSideSentMatch rcvdSeq rcvdElapsedMs prefixEpochMs hst
    maxGapMs
  let latencyMs : Option ℚ :=
    match picked.1 with
    | some (_, d) => if d ≤ HOST_SIDE_MAX_LATENCY_MS then some (d : ℚ) else none
    | none => none
  let seq : Option Int :=
    match picked.1 with
    | some (idx, _) =>
      match (hst.records.get? idx).bind (fun r => r.seq) with
      | some s => some s
      | none => rcvdSeq
    | none => rcvdSeq
  (picked.2,
    pushSample st tsPair.1 seq true latencyMs Status.reply tsPair.2)

/-- A concrete unmatched SENT record used in concrete evaluations. -/
def witnessSentRecord : SentRecord :=
  { seq := some 1, epochMs := some 1700000000000, elapsedMs := some 0,
    ts := some 1700000000000, tsSource := TsSource.log_prefix_epoch,
    matched := false }

/-- A concrete one-SENT host-side state. -/
def witnessHostState : HostSideState :=
  { records := [witnessSentRecord], bySeq := [(1, 0)] }

/-- The initial parser accumulators. -/
def emptyParserState : ParserState :=
  { derivedSeq := 0, skippedNoTsCount := 0, successCount := 0,
    failureCount := 0, samples := [] }

end IqooDebug.Ping

namespace IqooDebug.Analyzer

/-- The fields of `summarizePingFocus` (`analyzer.js`, src/unnamed/part_009)
read by the bidirectional classifier; the unused count/latency summary
fields are omitted. -/
structure PingSummary where
  sampleCount : Nat
  highLatencyBurstCount : Nat
  p95Ms : Option ℚ
  maxMs : Option ℚ
deriving DecidableEq, Repr

/-- Direction vocabulary of `classifyBidirectionalDirection`. -/
inductive Direction where
  | bidirectional
  | device_uplink_dominant
  | host_downlink_dominant
  | mixed_or_path_specific
  | inconclusive
  | no_data
deriving DecidableEq, Repr

/-- Classification record (the `detail` string is omitted). -/
structure Classification where
  direction : Direction
  confidence : Level
deriving DecidableEq, Repr

/-- The weighted side score
`(p95Ms || 0) + (maxMs || 0) * 0.4 + (burstCount || 0) * 6` of
`classifyBidirectionalDirection`. -/
def sideScore (s : PingSummary) : ℚ :=
  jsOr s.p95Ms 0 + jsOr s.maxMs 0 * (2/5) + (s.highLatencyBurstCount : ℚ) * 6

/-- `classifyBidirectionalDirection` (`analyzer.js` lines 1020-1076);
`strongerThreshold = 1.35`. -/
def classifyBidirectionalDirection (deviceSummary hostSummary : PingSummary)
    (overlapRatio : ℚ) : Classification :=
  let deviceScore := sideScore deviceSummary
  let hostScore := sideScore hostSummary
  if deviceSummary.sampleCount = 0 ∧ hostSummary.sampleCount = 0 then
    { direction := .no_data, confidence := .low }
  else if 0 < deviceSummary.highLatencyBurstCount
      ∧ 0 < hostSummary.highLatencyBurstCount
      ∧ overlapRatio ≥ 2/5 then
    { direction := .bidirectional,
      confidence := if overlapRatio ≥ 7/10 then .high else .medium }
  else if deviceScore > 0 ∧ deviceScore ≥ hostScore * (27/20) then
    { direction := .device_uplink_dominant,
      confidence := if deviceScore ≥ hostScore * (17/10) then .high
        else .medium }
  else if hostScore > 0 ∧ hostScore ≥ deviceScore * (27/20) then
    { direction := .host_downlink_dominant,
      confidence := if hostScore ≥ deviceScore * (17/10) then .high
        else .medium }
  else if 0 < deviceSummary.highLatencyBurstCount
      ∨ 0 < hostSummary.highLatencyBurstCount then
    { direction := .mixed_or_path_specific, confidence := .low }
  else
    { direction := .inconclusive, confidence := .low }

/-- Finding vocabulary of `buildBidirectionalPingAnalysis`. -/
inductive FindingType where
  | device_only_high_latency
  | host_only_high_latency
  | bidirectional_overlap
  | sample_alignment_low_coverage
deriving DecidableEq, Repr

/-- One finding (the `detail` string is omitted). -/
structure Finding where
  ftype : FindingType
  level : Level
deriving DecidableEq, Repr

/-- The alignment fields read by the findings block. -/
structure SampleAlignment where
  pairedCount : Nat
  deviceCoverage : ℚ
  hostSideCoverage : ℚ
deriving DecidableEq, Repr

/-- The findings block of `buildBidirectionalPingAnalysis`
(`analyzer.js` lines 1094-1125). -/
def buildBidirectionalFindings (deviceSummary hostSummary : PingSummary)
    (overlapRatio : ℚ) (sampleAlignment : SampleAlignment) : List Finding :=
  (if 0 < deviceSummary.highLatencyBurstCount
      ∧ hostSummary.highLatencyBurstCount = 0 then
    [{ ftype := .device_only_high_latency, level := .medium }]
  else [])
  ++ (if 0 < hostSummary.highLatencyBurstCount
      ∧ deviceSummary.highLatencyBurstCount = 0 then
    [{ ftype := .host_only_high_latency, level := .medium }]
  else [])
  ++ (if overlapRatio ≥ 2/5 then
    [{ ftype := .bidirectional_overlap,
       level := if overlapRatio ≥ 7/10 then .high else .medium }]
  else [])
  ++ (if 0 < sampleAlignment.pairedCount
      ∧ (sampleAlignment.deviceCoverage < 3/4
        ∨ sampleAlignment.hostSideCoverage < 3/4) then
    [{ ftype := .sample_alignment_low_coverage, level := .low }]
  else [])

/-- `toFixed(2)` as it occurs inside evidence `detail` strings, modelled by
rounding to centi-units. -/
def centi (x : ℚ) : Int :=
  jsRound (100 * x)

/-- Structured stand-in for the evidence `detail` strings of
`buildCauseRanking` and its helpers: two details are equal exactly when
their formatted components are equal. -/
inductive Detail where
  | burstDetail (startSeq endSeq : Option Int) (maxC avgC : Int)
  | jitterDetail (seq : Option Int) (latC : Option Int) (deltaC : Int)
  | pingP95Detail (lossC p95C : Int)
  | metricNearJitter (metric : String) (value : ℚ) (unit : String)
      (deltaC : Int)
  | sysNearJitter (t : String) (hits : Nat)
  | rttVarP95Detail (valC : Int)
  | totalP95Detail (totalC : Int) (fpsC : Option Int)
  | sysAggDetail (t : String) (total : ℚ) (avgC : Int)
  | breakdownDetail (cause : String) (kind : String) (valC : Int)
deriving DecidableEq, Repr

/-- One evidence row. -/
structure EvidenceRow where
  ts : Int
  metric : String
  value : ℚ
  detail : Detail
deriving DecidableEq, Repr

/-- The dedup key `ts.getTime()|metric|detail` of `appendEvidenceRow`. -/
def rowKey (r : EvidenceRow) : Int × String × Detail :=
  (r.ts, r.metric, r.detail)

/-- `appendEvidenceRow(target, seen, row)` (`analyzer.js` lines 321-327);
`seen` always holds exactly the keys of `target`, so it is derived rather
than passed.  The `ts instanceof Date` and `Number.isFinite(value)` guards
hold by construction over `Int`/`ℚ`; the `!row.metric` truthiness guard is
the emptiness test. -/
def appendEvidenceRow (target : List EvidenceRow) (row : EvidenceRow) :
    List EvidenceRow :=
  if row.metric = "" then target
  else if rowKey row ∈ target.map rowKey then target
  else target ++ [row]

/-- The row loop of `ensureEvidenceRows`: append until `maxCount` rows. -/
def ensureEvidenceRowsGo (maxCount : Nat) (out : List EvidenceRow) :
    List EvidenceRow → List EvidenceRow
  | [] => out
  | r :: rest =>
    if out.length ≥ maxCount then out
    else ensureEvidenceRowsGo maxCount (appendEvidenceRow out r) rest

/-- `ensureEvidenceRows(primaryRows, fallbackRows, minCount = 3,
maxCount = 5)` (`analyzer.js` lines 329-343). -/
def ensureEvidenceRows (primaryRows fallbackRows : List EvidenceRow)
    (minCount : Nat := 3) (maxCount : Nat := 5) : List EvidenceRow :=
  let out := ensureEvidenceRowsGo maxCount [] primaryRows
  let out2 :=
    if out.length < minCount then ensureEvidenceRowsGo maxCount out fallbackRows
    else out
  out2.take maxCount

/-- `buildScoreBreakdownEvidence(referenceTs, cause, overlap, leadLag,
intensity)` (`analyzer.js` lines 345-367). -/
def buildScoreBreakdownEvidence (referenceTs : Option Int) (cause : String)
    (overlap leadLag intensity : ℚ) : List EvidenceRow :=
  match referenceTs with
  | none => []
  | some ts =>
    [ { ts := ts, metric := cause ++ "_overlap", value := overlap,
        detail := .breakdownDetail cause "overlap" (centi overlap) },
      { ts := ts, metric := cause ++ "_lead_lag", value := leadLag,
        detail := .breakdownDetail cause "lead_lag" (centi leadLag) },
      { ts := ts, metric := cause ++ "_intensity", value := intensity,
        detail := .breakdownDetail cause "intensity" (centi intensity) } ]

/-- One app-metric sample as consumed by `pickMetricEvidence`. -/
structure MetricSample where
  ts : Int
  value : ℚ
  unit : String
deriving DecidableEq, Repr

/-- One jitter event as consumed by `buildCauseRanking`. -/
structure JitterEvent where
  ts : Int
  seq : Option Int
  latencyMs : Option ℚ
  deltaMs : ℚ
deriving DecidableEq, Repr

/-- One high-latency burst as consumed by `buildCauseRanking`. -/
structure BurstLite where
  startTs : Int
  startSeq : Option Int
  endSeq : Option Int
  maxLatencyMs : ℚ
  avgLatencyMs : ℚ
deriving DecidableEq, Repr

/-- `Map.get(type) || []` over the per-type sample map. -/
def samplesGet (m : List (String × List MetricSample)) (k : String) :
    List MetricSample :=
  ((m.find? (fun p => p.1 = k)).map (fun p => p.2)).getD []

/-- Stable insertion sort of samples by `ts` (JS comparator
`a.ts - b.ts`). -/
def insertSampleByTs (x : MetricSample) :
    List MetricSample → List MetricSample
  | [] => [x]
  | y :: t => if x.ts ≤ y.ts then x :: y :: t else y :: insertSampleByTs x t

/-- Samples sorted ascending by timestamp. -/
def sortSamplesByTs (l : List MetricSample) : List MetricSample :=
  l.foldr insertSampleByTs []

/-- Stable insertion sort of evidence rows descending by `value`
(JS comparator `b.value - a.value`). -/
def insertRowByValueDesc (x : EvidenceRow) :
    List EvidenceRow → List EvidenceRow
  | [] => [x]
  | y :: t =>
    if x.value ≥ y.value then x :: y :: t else y :: insertRowByValueDesc x t

/-- Evidence rows sorted descending by value. -/
def sortRowsByValueDesc (l : List EvidenceRow) : List EvidenceRow :=
  l.foldr insertRowByValueDesc []

/-- `pickMetricEvidence(metricType, metricSamplesByType, jitterEvents,
windowMs, limit = 5)` (`analyzer.js` lines 278-299). -/
def pickMetricEvidence (metricType : String)
    (metricSamplesByType : List (String × List MetricSample))
    (jitterEvents : List JitterEvent) (windowMs : Int) (limit : Nat := 5) :
    List EvidenceRow :=
  let samples := sortSamplesByTs (samplesGet metricSamplesByType metricType)
  if samples.length = 0 ∨ jitterEvents.length = 0 then []
  else
    let times := samples.map (fun x => x.ts)
    let hits := jitterEvents.flatMap (fun j =>
      let l := lowerBound times (j.ts - windowMs)
      let r := lowerBound times (j.ts + windowMs + 1)
      ((samples.drop l).take (r - l)).map (fun s =>
        { ts := s.ts, metric := metricType, value := s.value,
          detail := .metricNearJitter metricType s.value s.unit
            (centi j.deltaMs) }))
    (sortRowsByValueDesc hits).take limit

/-- `Map`-style access to the per-type sorted system event times. -/
def sysTimesGet (m : List (String × List Int)) (k : String) : List Int :=
  ((m.find? (fun p => p.1 = k)).map (fun p => p.2)).getD []

/-- `pickSystemEvidence(systemEventTimes, jitterPointTimes, windowMs, types,
limit = 5)` (`analyzer.js` lines 301-319). -/
def pickSystemEvidence (systemEventTimes : List (String × List Int))
    (jitterPointTimes : List Int) (windowMs : Int) (types : List String)
    (limit : Nat := 5) : List EvidenceRow :=
  let rows := types.flatMap (fun t =>
    (sysTimesGet systemEventTimes t).filterMap (fun ms =>
      let hits := countInRange jitterPointTimes (ms - windowMs) (ms + windowMs)
      if hits = 0 then none
      else some { ts := ms, metric := t, value := (hits : ℚ),
                  detail := Detail.sysNearJitter t hits }))
  (sortRowsByValueDesc rows).take limit

/-- The `p50`/`p95` fields of a `summarizeValues` record (`null` when the
metric has no samples or the key is absent). -/
structure SummaryStats where
  p50 : Option ℚ
  p95 : Option ℚ
deriving DecidableEq, Repr

/-- An absent metric summary (`|| {}` in the source). -/
def emptySummaryStats : SummaryStats :=
  { p50 := none, p95 := none }

/-- The `count`/`avg` of an `appMetricAroundJitter` entry. -/
structure MetricNear where
  count : Nat
  avg : Option ℚ
deriving DecidableEq, Repr

/-- The near-point statistics of a `systemAroundJitter` entry. -/
structure NearStats where
  hitRatio : ℚ
  total : ℚ
  avgPerPoint : ℚ
deriving DecidableEq, Repr

/-- The `|| { hitRatio: 0, total: 0, avgPerPoint: 0 }` default. -/
def emptyNearStats : NearStats :=
  { hitRatio := 0, total := 0, avgPerPoint := 0 }

/-- `metricSummary[k]` as an optional record. -/
def summaryFind (m : List (String × SummaryStats)) (k : String) :
    Option SummaryStats :=
  (m.find? (fun p => p.1 = k)).map (fun p => p.2)

/-- `appMetricAroundJitter[k]` as an optional record. -/
def nearFind (m : List (String × MetricNear)) (k : String) :
    Option MetricNear :=
  (m.find? (fun p => p.1 = k)).map (fun p => p.2)

/-- `systemAroundJitter[k] || default`. -/
def sysNearGet (m : List (String × NearStats)) (k : String) : NearStats :=
  ((m.find? (fun p => p.1 = k)).map (fun p => p.2)).getD emptyNearStats

/-- JS `(x.k && x.k.count) || (x.k2 && x.k2.count) || 0`: the first
**nonzero** count in the chain (a present entry with count 0 is falsy and
falls through). -/
def jsCountOr (c1 c2 : Option Nat) : Nat :=
  match c1 with
  | some n => if n = 0 then (match c2 with | some m => m | none => 0) else n
  | none => match c2 with | some m => m | none => 0

/-- The inputs of `buildCauseRanking` (`analyzer.js` lines 369-385);
`latencySummary`/`jitterSummary` are flattened to the fields actually
read. -/
structure CauseInputs where
  degraded : Bool
  windowMs : Int
  lossRatePct : ℚ
  latencyP95 : Option ℚ
  jitterP95DeltaMs : Option ℚ
  appAnomalyAroundJitterHitRatio : ℚ
  appAnomalyAroundHighLatencyHitRatio : ℚ
  appMetricAroundJitter : List (String × MetricNear)
  metricSummary : List (String × SummaryStats)
  metricSamplesByType : List (String × List MetricSample)
  jitterEvents : List JitterEvent
  highLatencyBursts : List BurstLite
  systemAroundJitter : List (String × NearStats)
  systemEventTimes : List (String × List Int)
  jitterPointTimes : List Int
  referenceTs : Option Int
deriving Repr

/-- One emitted cause entry (the `detail` strings live in the evidence). -/
structure CauseEntry where
  cause : String
  score : ℚ
  overlap : ℚ
  leadLag : ℚ
  intensity : ℚ
  level : Level
  confidence : Level
  evidence : List EvidenceRow
deriving DecidableEq, Repr

/-- Stable insertion sort of cause entries descending by `score`
(JS comparator `b.score - a.score`). -/
def insertEntryByScoreDesc (x : CauseEntry) :
    List CauseEntry → List CauseEntry
  | [] => [x]
  | y :: t =>
    if x.score ≥ y.score then x :: y :: t else y :: insertEntryByScoreDesc x t

/-- Cause entries sorted descending by score. -/
def sortEntriesByScoreDesc (l : List CauseEntry) : List CauseEntry :=
  l.foldr insertEntryByScoreDesc []

/-- Stable insertion sort of bursts descending by `maxLatencyMs`
(JS comparator `b.maxLatencyMs - a.maxLatencyMs`). -/
def insertBurstByMaxDesc (x : BurstLite) : List BurstLite → List BurstLite
  | [] => [x]
  | y :: t =>
    if x.maxLatencyMs ≥ y.maxLatencyMs then x :: y :: t
    else y :: insertBurstByMaxDesc x t

/-- Bursts sorted descending by max latency. -/
def sortBurstsByMaxDesc (l : List BurstLite) : List BurstLite :=
  l.foldr insertBurstByMaxDesc []

/-- `keySystemTypes` of the system cause (`analyzer.js` line 515). -/
def keySystemTypes : List String :=
  ["DISCONNECT", "DHCP", "DOZE_ENTER", "DOZE_EXIT", "IDLE_ENTER",
   "IDLE_EXIT", "CONNECT"]

/-- One `ranking.push` record of `buildCauseRanking`: the adjusted score,
its level, and the degraded-forced confidence. -/
def mkCauseEntry (degraded : Bool) (cause : String)
    (overlap leadLag intensity : ℚ) (evidence : List EvidenceRow) :
    CauseEntry :=
  let score := computeScore overlap leadLag intensity
  let adjustedScore := if degraded then score * (7/10) else score
  { cause := cause, score := adjustedScore, overlap := overlap,
    leadLag := leadLag, intensity := intensity,
    level := scoreToLevel adjustedScore,
    confidence := if degraded then Level.low else scoreToLevel score,
    evidence := evidence }

/-- `buildCauseRanking` (`analyzer.js` lines 369-553): the four cause
blocks followed by the score-descending sort. -/
def buildCauseRanking (inp : CauseInputs) : List CauseEntry :=
  -- network_path_jitter (lines 388-431)
  let networkOverlap := clamp01 (inp.appAnomalyAroundJitterHitRatio * (6/5))
  let networkLeadLag :=
    clamp01 (inp.appAnomalyAroundHighLatencyHitRatio * (6/5))
  let networkIntensity := average
    [normalize inp.lossRatePct 0 2,
     normalizeOpt inp.latencyP95 12 40,
     normalizeOpt inp.jitterP95DeltaMs 8 60]
  let networkEvidencePrimary :=
    ((sortBurstsByMaxDesc inp.highLatencyBursts).take 5).map (fun x =>
      { ts := x.startTs, metric := "ping_high_latency",
        value := x.maxLatencyMs,
        detail := Detail.burstDetail x.startSeq x.endSeq
          (centi x.maxLatencyMs) (centi x.avgLatencyMs) })
  let networkEvidenceFallback :=
    (inp.jitterEvents.take 4).map (fun x =>
      { ts := x.ts, metric := "ping_jitter_delta", value := x.deltaMs,
        detail := Detail.jitterDetail x.seq (x.latencyMs.map centi)
          (centi x.deltaMs) })
    ++ (match inp.latencyP95, inp.referenceTs with
      | some p95, some ref =>
        [{ ts := ref, metric := "ping_p95_ms", value := p95,
           detail := Detail.pingP95Detail (centi inp.lossRatePct)
             (centi p95) }]
      | _, _ => [])
    ++ buildScoreBreakdownEvidence inp.referenceTs "network_path_jitter"
      networkOverlap networkLeadLag networkIntensity
  let networkEvidence :=
    ensureEvidenceRows networkEvidencePrimary networkEvidenceFallback 3 5
  -- rtt_variance_burst (lines 433-464)
  let rttVarSummary := (summaryFind inp.metricSummary "rtt_var_ms").getD
    emptySummaryStats
  let rttVarNear := (nearFind inp.appMetricAroundJitter "rtt_var_ms").getD
    { count := 0, avg := none }
  let rttOverlap := clamp01
    ((rttVarNear.count : ℚ) / max 1 (inp.jitterEvents.length : ℚ))
  let rttLeadLag := clamp01
    (jsOr rttVarNear.avg 0 / max 1 (jsOr inp.latencyP95 20))
  let rttIntensity := normalizeOpt rttVarSummary.p95 5 40
  let rttEvidence := ensureEvidenceRows
    (pickMetricEvidence "rtt_var_ms" inp.metricSamplesByType
      inp.jitterEvents inp.windowMs 5)
    (pickMetricEvidence "rtt_ms" inp.metricSamplesByType
      inp.jitterEvents inp.windowMs 3
      ++ (match rttVarSummary.p95, inp.referenceTs with
        | some p95, some ref =>
          [{ ts := ref, metric := "rtt_var_ms_p95", value := p95,
             detail := Detail.rttVarP95Detail (centi p95) }]
        | _, _ => [])
      ++ buildScoreBreakdownEvidence inp.referenceTs "rtt_variance_burst"
        rttOverlap rttLeadLag rttIntensity)
    3 5
  -- decode_render_overload (lines 466-513)
  let decodeSummary := (summaryFind inp.metricSummary "decode_ms").getD
    emptySummaryStats
  let renderSummary := (summaryFind inp.metricSummary "render_ms").getD
    emptySummaryStats
  let totalSummary := (summaryFind inp.metricSummary "total_ms").getD
    emptySummaryStats
  let lossSummary :=
    match summaryFind inp.metricSummary "loss_pct" with
    | some s => s
    | none => (summaryFind inp.metricSummary "lost_frame_pct").getD
        emptySummaryStats
  let fpsSummary :=
    match summaryFind inp.metricSummary "fps_total" with
    | some s => s
    | none => (summaryFind inp.metricSummary "fps_rd").getD emptySummaryStats
  let decodeNearCount := jsCountOr
    ((nearFind inp.appMetricAroundJitter "decode_ms").map (fun x => x.count))
    none
  let renderNearCount := jsCountOr
    ((nearFind inp.appMetricAroundJitter "render_ms").map (fun x => x.count))
    none
  let totalNearCount := jsCountOr
    ((nearFind inp.appMetricAroundJitter "total_ms").map (fun x => x.count))
    none
  let lossNearCount := jsCountOr
    ((nearFind inp.appMetricAroundJitter "loss_pct").map (fun x => x.count))
    ((nearFind inp.appMetricAroundJitter "lost_frame_pct").map
      (fun x => x.count))
  let decodeOverlap := clamp01
    (((decodeNearCount + renderNearCount + totalNearCount + lossNearCount : Nat)
        : ℚ)
      / max 1 ((inp.jitterEvents.length : ℚ) * (6/5)))
  let decodeLeadLag := clamp01 inp.appAnomalyAroundHighLatencyHitRatio
  let decodeIntensity := average
    [normalize (max (jsOr totalSummary.p95 0)
        (max (jsOr decodeSummary.p95 0) (jsOr renderSummary.p95 0))) 12 80,
     normalize (jsOr lossSummary.p95 0) (1/2) 10,
     match fpsSummary.p50 with
     | none => 0
     | some p50 => clamp01 ((60 - p50) / 60)]
  let decodeEvidence := ensureEvidenceRows
    (pickMetricEvidence "total_ms" inp.metricSamplesByType
        inp.jitterEvents inp.windowMs 3
      ++ pickMetricEvidence "loss_pct" inp.metricSamplesByType
        inp.jitterEvents inp.windowMs 2)
    (pickMetricEvidence "decode_ms" inp.metricSamplesByType
        inp.jitterEvents inp.windowMs 2
      ++ pickMetricEvidence "render_ms" inp.metricSamplesByType
        inp.jitterEvents inp.windowMs 2
      ++ (match totalSummary.p95, inp.referenceTs with
        | some p95, some ref =>
          [{ ts := ref, metric := "total_ms_p95", value := p95,
             detail := Detail.totalP95Detail (centi p95)
               (fpsSummary.p50.map centi) }]
        | _, _ => [])
      ++ buildScoreBreakdownEvidence inp.referenceTs "decode_render_overload"
        decodeOverlap decodeLeadLag decodeIntensity)
    3 5
  -- system_transition_interference (lines 515-549)
  let sysRows := keySystemTypes.map (fun t => sysNearGet inp.systemAroundJitter t)
  let sysOverlap := sysRows.foldl (fun m x => max m x.hitRatio) 0
  let sysLeadLag := normalize
    (sysRows.foldl (fun acc x => acc + x.avgPerPoint) 0) (1/100) (1/5)
  let sysIntensity := normalize
    (sysRows.foldl (fun acc x => acc + x.total) 0) 2 60
  let systemEvidence := ensureEvidenceRows
    (pickSystemEvidence inp.systemEventTimes inp.jitterPointTimes
      inp.windowMs keySystemTypes 5)
    ((match inp.referenceTs with
      | some ref =>
        (((keySystemTypes.map (fun t =>
              (t, sysNearGet inp.systemAroundJitter t))).filter
            (fun p => p.2.total > 0)).take 5).map (fun p =>
          { ts := ref, metric := p.1, value := p.2.total,
            detail := Detail.sysAggDetail p.1 p.2.total
              (centi p.2.avgPerPoint) })
      | none => [])
      ++ buildScoreBreakdownEvidence inp.referenceTs
        "system_transition_interference" sysOverlap sysLeadLag sysIntensity)
    3 5
  sortEntriesByScoreDesc
    [mkCauseEntry inp.degraded "network_path_jitter" networkOverlap
      networkLeadLag networkIntensity networkEvidence,
     mkCauseEntry inp.degraded "rtt_variance_burst" rttOverlap rttLeadLag
      rttIntensity rttEvidence,
     mkCauseEntry inp.degraded "decode_render_overload" decodeOverlap
      decodeLeadLag decodeIntensity decodeEvidence,
     mkCauseEntry inp.degraded "system_transition_interference" sysOverlap
      sysLeadLag sysIntensity systemEvidence]

/-- The all-empty cause-ranking input (an empty capture: no ping samples,
no app samples, no anomalies, so `referenceTs` is `null`). -/
def emptyCauseInputs : CauseInputs :=
  { degraded := false, windowMs := 1000, lossRatePct := 0,
    latencyP95 := none, jitterP95DeltaMs := none,
    appAnomalyAroundJitterHitRatio := 0,
    appAnomalyAroundHighLatencyHitRatio := 0,
    appMetricAroundJitter := [], metricSummary := [],
    metricSamplesByType := [], jitterEvents := [], highLatencyBursts := [],
    systemAroundJitter := [], systemEventTimes := [], jitterPointTimes := [],
    referenceTs := none }

/-- The head entry of the empty-input ranking. -/
def networkEntry0 : CauseEntry :=
  mkCauseEntry false "network_path_jitter" 0 0 0 []

/-- Three rows with distinct timestamps: a primary list that already fills
the minimum evidence quota. -/
def witnessEvidenceRows : List EvidenceRow :=
  [{ ts := 1, metric := "DHCP", value := 1, detail := .sysNearJitter "DHCP" 1 },
   { ts := 2, metric := "DHCP", value := 1, detail := .sysNearJitter "DHCP" 1 },
   { ts := 3, metric := "DHCP", value := 1, detail := .sysNearJitter "DHCP" 1 }]

end IqooDebug.Analyzer

namespace IqooDebug.StreamPhase

/-- Membership through `insertByStart`. -/
theorem mem_insertByStart (x a : EffWindow) :
    ∀ l : List EffWindow, a ∈ insertByStart x l ↔ a = x ∨ a ∈ l := by
  intro l
  induction l with
  | nil => simp [insertByStart]
  | cons y t ih =>
    by_cases h : x.startTs < y.startTs
    · simp [insertByStart, if_pos h]
    · simp only [insertByStart, if_neg h, List.mem_cons, ih]
      tauto

/-- `insertByStart` preserves sortedness by `startTs`. -/
theorem pairwise_insertByStart (x : EffWindow) :
    ∀ l : List EffWindow,
      l.Pairwise (fun u v => u.startTs ≤ v.startTs) →
      (insertByStart x l).Pairwise (fun u v => u.startTs ≤ v.startTs) := by
  intro l
  induction l with
  | nil => intro _; simp [insertByStart]
  | cons y t ih =>
    intro hpw
    rw [List.pairwise_cons] at hpw
    obtain ⟨hy, ht⟩ := hpw
    by_cases h : x.startTs < y.startTs
    · rw [insertByStart, if_pos h, List.pairwise_cons]
      refine ⟨?_, List.pairwise_cons.mpr ⟨hy, ht⟩⟩
      intro z hz
      rcases List.mem_cons.mp hz with hz | hz
      · subst hz; exact le_of_lt h
      · exact le_trans (le_of_lt h) (hy z hz)
    · rw [insertByStart, if_neg h, List.pairwise_cons]
      refine ⟨?_, ih ht⟩
      intro z hz
      rcases (mem_insertByStart x z t).mp hz with hz | hz
      · subst hz; exact le_of_not_lt h
      · exact hy z hz

/-- Membership through `sortByStartTs`. -/
theorem mem_sortByStartTs (a : EffWindow) :
    ∀ l : List EffWindow, a ∈ sortByStartTs l ↔ a ∈ l := by
  intro l
  induction l with
  | nil => simp [sortByStartTs]
  | cons y t ih =>
    show a ∈ insertByStart y (sortByStartTs t) ↔ _
    rw [mem_insertByStart, ih]
    simp

/-- `sortByStartTs` sorts by `startTs`. -/
theorem pairwise_sortByStartTs :
    ∀ l : List EffWindow,
      (sortByStartTs l).Pairwise (fun u v => u.startTs ≤ v.startTs) := by
  intro l
  induction l with
  | nil => simp [sortByStartTs]
  | cons y t ih => exact pairwise_insertByStart y _ ih

/-- Merge invariant: any window property preserved by the end-extension
update holds for every merged window. -/
theorem mergeGo_preserve (P : EffWindow → Prop)
    (hupd : ∀ u v, P u → P v →
      P { u with endTs := if v.endTs > u.endTs then v.endTs else u.endTs }) :
    ∀ (rest : List EffWindow) (last : EffWindow), P last →
      (∀ w ∈ rest, P w) → ∀ m ∈ mergeGo last rest, P m := by
  intro rest
  induction rest with
  | nil =>
    intro last hlast _ m hm
    simp only [mergeGo, List.mem_singleton] at hm
    subst hm; exact hlast
  | cons cur rest ih =>
    intro last hlast hrest m hm
    by_cases h : cur.startTs ≤ last.endTs
    · rw [mergeGo, if_pos h] at hm
      exact ih _ (hupd last cur hlast (hrest cur (List.mem_cons_self _ _)))
        (fun w hw => hrest w (List.mem_cons_of_mem _ hw)) m hm
    · rw [mergeGo, if_neg h] at hm
      rcases List.mem_cons.mp hm with hm | hm
      · subst hm; exact hlast
      · exact ih cur (hrest cur (List.mem_cons_self _ _))
          (fun w hw => hrest w (List.mem_cons_of_mem _ hw)) m hm

/-- The head of a merge keeps the start of the window being grown. -/
theorem mergeGo_head :
    ∀ (rest : List EffWindow) (last : EffWindow),
      ∃ hd tail, mergeGo last rest = hd :: tail ∧ hd.startTs = last.startTs := by
  intro rest
  induction rest with
  | nil => intro last; exact ⟨last, [], rfl, rfl⟩
  | cons cur rest ih =>
    intro last
    by_cases h : cur.startTs ≤ last.endTs
    · obtain ⟨hd, tail, heq, hst⟩ := ih
        { last with
          endTs := if cur.endTs > last.endTs then cur.endTs else last.endTs }
      exact ⟨hd, tail, by rw [mergeGo, if_pos h, heq], hst⟩
    · obtain ⟨hd, tail, heq, hst⟩ := ih cur
      exact ⟨last, mergeGo cur rest, by rw [mergeGo, if_neg h], rfl⟩

/-- Merged windows are strictly separated (sorted and pairwise disjoint). -/
theorem mergeGo_disjoint :
    ∀ (rest : List EffWindow) (last : EffWindow),
      rest.Pairwise (fun u v => u.startTs ≤ v.startTs) →
      (∀ w ∈ rest, last.startTs ≤ w.startTs) →
      (mergeGo last rest).Chain' (fun u v => u.endTs < v.startTs) := by
  intro rest
  induction rest with
  | nil =>
    intro last _ _
    exact List.chain'_singleton last
  | cons cur rest ih =>
    intro last hpw hge
    rw [List.pairwise_cons] at hpw
    obtain ⟨hcur, hrest⟩ := hpw
    by_cases h : cur.startTs ≤ last.endTs
    · rw [mergeGo, if_pos h]
      exact ih _ hrest (fun w hw =>
        le_trans (hge cur (List.mem_cons_self _ _)) (hcur w hw))
    · rw [mergeGo, if_neg h]
      rw [List.chain'_cons']
      constructor
      · intro hd hhd
        obtain ⟨hd2, tail, heq, hst⟩ := mergeGo_head rest cur
        rw [heq] at hhd
        simp only [List.head?_cons, Option.mem_def, Option.some.injEq] at hhd
        subst hhd
        rw [hst]
        exact lt_of_not_le h
      · exact ih cur hrest hcur

/-- Every input window is contained in some merged window. -/
theorem mergeGo_covers :
    ∀ (rest : List EffWindow) (last : EffWindow),
      rest.Pairwise (fun u v => u.startTs ≤ v.startTs) →
      (∀ w ∈ rest, last.startTs ≤ w.startTs) →
      (∃ m ∈ mergeGo last rest, m.startTs ≤ last.startTs ∧ last.endTs ≤ m.endTs)
      ∧ ∀ w ∈ rest, ∃ m ∈ mergeGo last rest,
          m.startTs ≤ w.startTs ∧ w.endTs ≤ m.endTs := by
  intro rest
  induction rest with
  | nil =>
    intro last _ _
    exact ⟨⟨last, List.mem_singleton_self last, le_refl _, le_refl _⟩,
      by intro w hw; cases hw⟩
  | cons cur rest ih =>
    intro last hpw hge
    rw [List.pairwise_cons] at hpw
    obtain ⟨hcur, hrest⟩ := hpw
    by_cases h : cur.startTs ≤ last.endTs
    · rw [mergeGo, if_pos h]
      set last2 : EffWindow :=
        { last with
          endTs := if cur.endTs > last.endTs then cur.endTs else last.endTs }
        with hlast2
      have hge2 : ∀ w ∈ rest, last2.startTs ≤ w.startTs := fun w hw =>
        le_trans (hge cur (List.mem_cons_self _ _)) (hcur w hw)
      obtain ⟨⟨m, hm, hms, hme⟩, hcov⟩ := ih last2 hrest hge2
      have hend2 : last.endTs ≤ last2.endTs := by
        rw [hlast2]
        dsimp only
        split
        · exact le_of_lt (by assumption)
        · exact le_refl _
      refine ⟨⟨m, hm, ?_, ?_⟩, ?_⟩
      · exact hms
      · exact le_trans hend2 hme
      · intro w hw
        rcases List.mem_cons.mp hw with hw | hw
        · subst hw
          refine ⟨m, hm, ?_, ?_⟩
          · exact le_trans hms (hge w (List.mem_cons_self _ _))
          · refine le_trans ?_ hme
            rw [hlast2]
            dsimp only
            split
            · exact le_refl _
            · exact le_of_not_lt (by assumption)
        · exact hcov w hw
    · rw [mergeGo, if_neg h]
      obtain ⟨⟨m, hm, hms, hme⟩, hcov⟩ := ih cur hrest hcur
      refine ⟨⟨last, List.mem_cons_self _ _, le_refl _, le_refl _⟩, ?_⟩
      intro w hw
      rcases List.mem_cons.mp hw with hw | hw
      · subst hw
        exact ⟨m, List.mem_cons_of_mem _ hm, hms, hme⟩
      · obtain ⟨m2, hm2, hs2, he2⟩ := hcov w hw
        exact ⟨m2, List.mem_cons_of_mem _ hm2, hs2, he2⟩

/-- Clipping lands in `[a, b]` when `a ≤ b`. -/
theorem clipDate_mem (d a b : ℚ) (hab : a ≤ b) :
    a ≤ clipDate d (some a) (some b) ∧ clipDate d (some a) (some b) ≤ b := by
  unfold clipDate
  dsimp only
  by_cases h1 : d < a
  · rw [if_pos h1]
    exact ⟨le_refl a, hab⟩
  · rw [if_neg h1]
    by_cases h2 : d > b
    · rw [if_pos h2]
      exact ⟨hab, le_refl b⟩
    · rw [if_neg h2]
      exact ⟨le_of_not_lt h1, le_of_not_lt h2⟩

end IqooDebug.StreamPhase

namespace IqooDebug.Ping

/-- `chunkLast` of a list extended on the right. -/
theorem chunkLast_append_singleton (l : List HLSample) (s : HLSample) :
    chunkLast (l ++ [s]) = s := by
  induction l with
  | nil => rfl
  | cons a t ih =>
    cases t with
    | nil => rfl
    | cons b t2 => simpa [chunkLast] using ih

/-- `chunkHead` of a nonempty list extended on the right. -/
theorem chunkHead_append_singleton (l : List HLSample) (hl : l ≠ [])
    (s : HLSample) : chunkHead (l ++ [s]) = chunkHead l := by
  cases l with
  | nil => exact absurd rfl hl
  | cons a t => rfl

/-- `getLast?` of a nonempty chunk is its `chunkLast`. -/
theorem getLast?_eq_chunkLast (l : List HLSample) (hl : l ≠ []) :
    l.getLast? = some (chunkLast l) := by
  induction l with
  | nil => exact absurd rfl hl
  | cons a t ih =>
    cases t with
    | nil => rfl
    | cons b t2 =>
      rw [List.getLast?_cons_cons]
      exact ih (List.cons_ne_nil b t2)

/-- `chunkMax` of a list extended on the right. -/
theorem chunkMax_append_singleton (l : List HLSample) (hl : l ≠ [])
    (s : HLSample) : chunkMax (l ++ [s]) = max (chunkMax l) s.latencyMs := by
  cases l with
  | nil => exact absurd rfl hl
  | cons a t =>
    show (t ++ [s]).foldl (fun m x => max m x.latencyMs) a.latencyMs
      = max (t.foldl (fun m x => max m x.latencyMs) a.latencyMs) s.latencyMs
    rw [List.foldl_append]
    rfl

/-- The accumulator of a singleton chunk is the fresh accumulator. -/
theorem accOf_singleton (s : HLSample) : accOf [s] = initAcc s := by
  unfold accOf initAcc
  simp [chunkHead, chunkLast, chunkMax]

/-- Extending a nonempty chunk commutes with extending the accumulator. -/
theorem accOf_append (l : List HLSample) (hl : l ≠ []) (s : HLSample) :
    accOf (l ++ [s]) = extendAcc (accOf l) s := by
  unfold accOf extendAcc
  simp only [chunkLast_append_singleton, chunkHead_append_singleton l hl,
    chunkMax_append_singleton l hl, List.length_append, List.length_cons,
    List.length_nil, List.map_append, List.map_cons, List.map_nil,
    List.sum_append, List.sum_cons, List.sum_nil, CurAcc.mk.injEq]
  refine ⟨trivial, trivial, trivial, trivial, trivial, trivial, by ring⟩

/-- `finishBurst` of a chunk accumulator is the chunk's burst record. -/
theorem finishBurst_accOf (l : List HLSample) :
    finishBurst (accOf l) = mkBurst l := by
  rfl

/-- The burst fold over a pending chunk equals the chunk decomposition,
burst-rendered. -/
theorem buildGo_eq_chunkGo (g : Int) :
    ∀ (rest l : List HLSample), l ≠ [] →
      buildGo g (accOf l) rest
        = (chunkGo g l (chunkLast l) rest).map mkBurst := by
  intro rest
  induction rest with
  | nil =>
    intro l hl
    simp [buildGo, chunkGo, finishBurst_accOf]
  | cons s rest ih =>
    intro l hl
    have hend : (accOf l).endTs = (chunkLast l).ts := rfl
    by_cases hgap : s.ts - (chunkLast l).ts > g
    · simp only [buildGo, chunkGo, hend, if_pos hgap, List.map_cons]
      rw [finishBurst_accOf, ← accOf_singleton]
      have h2 := ih [s] (by simp)
      simp only [chunkLast] at h2
      rw [h2]
    · simp only [buildGo, chunkGo, hend, if_neg hgap]
      rw [← accOf_append l hl s, ih (l ++ [s]) (by simp),
        chunkLast_append_singleton]

/-- The chunks concatenate back to the input samples. -/
theorem chunkGo_join (g : Int) :
    ∀ (rest pending : List HLSample) (lastS : HLSample),
      (chunkGo g pending lastS rest).flatten = pending ++ rest := by
  intro rest
  induction rest with
  | nil => intro pending lastS; simp [chunkGo]
  | cons s rest ih =>
    intro pending lastS
    by_cases hgap : s.ts - lastS.ts > g
    · simp only [chunkGo, if_pos hgap, List.flatten_cons]
      rw [ih]
      simp
    · simp only [chunkGo, if_neg hgap]
      rw [ih]
      simp

/-- Every chunk is nonempty. -/
theorem chunkGo_ne_nil (g : Int) :
    ∀ (rest pending : List HLSample) (lastS : HLSample), pending ≠ [] →
      ∀ c ∈ chunkGo g pending lastS rest, c ≠ [] := by
  intro rest
  induction rest with
  | nil =>
    intro pending lastS hp c hc
    simp only [chunkGo, List.mem_singleton] at hc
    subst hc; exact hp
  | cons s rest ih =>
    intro pending lastS hp c hc
    by_cases hgap : s.ts - lastS.ts > g
    · simp only [chunkGo, if_pos hgap, List.mem_cons] at hc
      rcases hc with hc | hc
      · subst hc; exact hp
      · exact ih [s] s (by simp) c hc
    · simp only [chunkGo, if_neg hgap] at hc
      exact ih (pending ++ [s]) s (by simp) c hc

/-- Inside every chunk, consecutive samples are at most `g` apart. -/
theorem chunkGo_chain (g : Int) :
    ∀ (rest pending : List HLSample) (lastS : HLSample),
      pending ≠ [] → chunkLast pending = lastS →
      pending.Chain' (fun a b => b.ts - a.ts ≤ g) →
      ∀ c ∈ chunkGo g pending lastS rest,
        c.Chain' (fun a b => b.ts - a.ts ≤ g) := by
  intro rest
  induction rest with
  | nil =>
    intro pending lastS hp hlast hchain c hc
    simp only [chunkGo, List.mem_singleton] at hc
    subst hc; exact hchain
  | cons s rest ih =>
    intro pending lastS hp hlast hchain c hc
    by_cases hgap : s.ts - lastS.ts > g
    · simp only [chunkGo, if_pos hgap, List.mem_cons] at hc
      rcases hc with hc | hc
      · subst hc; exact hchain
      · exact ih [s] s (by simp) rfl (List.chain'_singleton s) c hc
    · simp only [chunkGo, if_neg hgap] at hc
      refine ih (pending ++ [s]) s (by simp) (chunkLast_append_singleton _ _)
        ?_ c hc
      rw [List.chain'_append]
      refine ⟨hchain, List.chain'_singleton s, ?_⟩
      intro x hx y hy
      rw [getLast?_eq_chunkLast pending hp] at hx
      simp only [Option.mem_def, Option.some.injEq] at hx
      simp only [List.head?_cons, Option.mem_def, Option.some.injEq] at hy
      subst hx; subst hy
      rw [hlast]
      omega

/-- The first chunk extends the pending run. -/
theorem chunkGo_head_append (g : Int) :
    ∀ (rest pending : List HLSample) (lastS : HLSample),
      ∃ t tail, chunkGo g pending lastS rest = (pending ++ t) :: tail := by
  intro rest
  induction rest with
  | nil =>
    intro pending lastS
    exact ⟨[], [], by simp [chunkGo]⟩
  | cons s rest ih =>
    intro pending lastS
    by_cases hgap : s.ts - lastS.ts > g
    · exact ⟨[], chunkGo g [s] s rest, by simp [chunkGo, if_pos hgap]⟩
    · obtain ⟨t, tail, ht⟩ := ih (pending ++ [s]) s
      refine ⟨[s] ++ t, tail, ?_⟩
      simp only [chunkGo, if_neg hgap]
      rw [ht]
      simp

/-- Consecutive chunks are separated by a gap exceeding `g`. -/
theorem chunkGo_boundary (g : Int) :
    ∀ (rest pending : List HLSample) (lastS : HLSample),
      pending ≠ [] → chunkLast pending = lastS →
      List.Chain'
        (fun c1 c2 => ∀ x ∈ c1.getLast?, ∀ y ∈ c2.head?, g < y.ts - x.ts)
        (chunkGo g pending lastS rest) := by
  intro rest
  induction rest with
  | nil =>
    intro pending lastS hp hlast
    exact List.chain'_singleton pending
  | cons s rest ih =>
    intro pending lastS hp hlast
    by_cases hgap : s.ts - lastS.ts > g
    · simp only [chunkGo, if_pos hgap]
      rw [List.chain'_cons']
      constructor
      · intro c2 hc2
        obtain ⟨t, tail, ht⟩ := chunkGo_head_append g rest [s] s
        rw [ht] at hc2
        simp only [List.head?_cons, Option.mem_def, Option.some.injEq] at hc2
        subst hc2
        intro x hx y hy
        rw [getLast?_eq_chunkLast pending hp] at hx
        simp only [Option.mem_def, Option.some.injEq] at hx
        simp only [List.cons_append, List.head?_cons, Option.mem_def,
          Option.some.injEq] at hy
        subst hx; subst hy
        rw [hlast]
        omega
      · exact ih [s] s (by simp) rfl
    · simp only [chunkGo, if_neg hgap]
      exact ih (pending ++ [s]) s (by simp) (chunkLast_append_singleton _ _)

/-- A successful `scanByTime` result points at an input record. -/
theorem scanByTime_mem (re rp : Option Int) (g : Int) :
    ∀ ps : List (Nat × SentRecord), ∀ i d,
      scanByTime re rp g ps = some (i, d) → ∃ s, (i, s) ∈ ps := by
  intro ps
  induction ps with
  | nil => intro i d h; cases h
  | cons p rest ih =>
    intro i d h
    obtain ⟨j, sent⟩ := p
    rw [scanByTime] at h
    split at h
    · obtain ⟨s, hs⟩ := ih i d h
      exact ⟨s, List.mem_cons_of_mem _ hs⟩
    · split at h
      · obtain ⟨s, hs⟩ := ih i d h
        exact ⟨s, List.mem_cons_of_mem _ hs⟩
      · split at h
        · obtain ⟨s, hs⟩ := ih i d h
          exact ⟨s, List.mem_cons_of_mem _ hs⟩
        · split at h
          · cases h
          · injection h with h2
            injection h2 with h3 h4
            subst h3
            exact ⟨sent, List.mem_cons_self _ _⟩

/-- Membership in `enumFrom` determines the underlying `get?`. -/
theorem get?_of_mem_enumFrom {α : Type} :
    ∀ (l : List α) (k i : Nat) (a : α),
      (i, a) ∈ l.enumFrom k → k ≤ i ∧ l.get? (i - k) = some a := by
  intro l
  induction l with
  | nil => intro k i a h; cases h
  | cons x t ih =>
    intro k i a h
    rw [List.enumFrom_cons] at h
    rcases List.mem_cons.mp h with h | h
    · injection h with h1 h2
      subst h1; subst h2
      simp
    · obtain ⟨hk, hg⟩ := ih (k + 1) i a h
      refine ⟨by omega, ?_⟩
      have : i - k = (i - (k + 1)) + 1 := by omega
      rw [this]
      simpa using hg

/-- Membership in `enum` determines the underlying `get?`. -/
theorem get?_of_mem_enum {α : Type} (l : List α) (i : Nat) (a : α)
    (h : (i, a) ∈ l.enum) : l.get? i = some a := by
  have := get?_of_mem_enumFrom l 0 i a h
  simpa using this.2

/-- `get?` through an index-aware map. -/
theorem get?_enum_map {α β : Type} :
    ∀ (l : List α) (f : Nat × α → β) (i : Nat),
      (l.enum.map f).get? i = (l.get? i).map (fun a => f (i, a)) := by
  have general : ∀ (l : List α) (k : Nat) (f : Nat × α → β) (i : Nat),
      ((l.enumFrom k).map f).get? i
        = (l.get? i).map (fun a => f (k + i, a)) := by
    intro l
    induction l with
    | nil => intro k f i; simp
    | cons x t ih =>
      intro k f i
      rw [List.enumFrom_cons]
      cases i with
      | zero => simp
      | succ j =>
        simp only [List.map_cons, List.get?_cons_succ, ih (k + 1) f j]
        have : k + 1 + j = k + (j + 1) := by omega
        rw [this]
  intro l f i
  have := general l 0 f i
  simpa using this

/-- A successful `pickBestDirect` candidate points at an input record. -/
theorem pickBestDirect_get (seq re rp : Option Int) (hst : HostSideState)
    (g : Int) (idx : Nat) (d : Int)
    (h : pickBestDirect seq re rp hst g = some (idx, d)) :
    ∃ r, hst.records.get? idx = some r := by
  unfold pickBestDirect at h
  cases seq with
  | none => cases h
  | some sq =>
    simp only at h
    cases hget : assocGet hst.bySeq sq with
    | none =>
      simp only [hget] at h
      exact Option.noConfusion h
    | some i3 =>
      simp only [hget] at h
      cases hrec : hst.records.get? i3 with
      | none =>
        simp only [hrec] at h
        exact Option.noConfusion h
      | some direct =>
        simp only [hrec] at h
        split at h
        · cases h
        · split at h
          · cases h
          · split at h
            · injection h with h2
              injection h2 with h3 h4
              subst h3
              exact ⟨direct, hrec⟩
            · cases h

/-- `pickBest` returns one of its two candidates. -/
theorem pickBest_cases (bd bt : Option (Nat × Int)) (p : Nat × Int)
    (h : pickBest bd bt = some p) : bd = some p ∨ bt = some p := by
  unfold pickBest at h
  cases bd with
  | none =>
    cases bt with
    | none => cases h
    | some q => right; exact h
  | some q =>
    cases bt with
    | none => left; exact h
    | some q2 =>
      simp only at h
      split at h
      · right; exact h
      · left; exact h

/-- A successful `pickBestByTime` candidate points at an input record. -/
theorem pickBestByTime_get (re rp : Option Int) (hst : HostSideState)
    (g : Int) (idx : Nat) (d : Int)
    (h : pickBestByTime re rp hst g = some (idx, d)) :
    ∃ r, hst.records.get? idx = some r := by
  obtain ⟨s, hs⟩ := scanByTime_mem re rp g _ idx d h
  exact ⟨s, get?_of_mem_enum _ _ _ (List.mem_reverse.mp hs)⟩

/-- The SENT record chosen by `pickHostSideSentMatch` is consumed: it is
marked `matched` in the updated state, regardless of any later latency
cap. -/
theorem pickHostSideSentMatch_marks (seq : Option Int)
    (re rp : Option Int) (hst : HostSideState) (g : Int) :
    ∀ idx d, (pickHostSideSentMatch seq re rp hst g).1 = some (idx, d) →
      ∃ r, hst.records.get? idx = some r
        ∧ (pickHostSideSentMatch seq re rp hst g).2.records.get? idx
            = some { r with matched := true } := by
  intro idx d h
  have hbest : pickBest (pickBestDirect seq re rp hst g)
      (pickBestByTime re rp hst g) = some (idx, d) := by
    unfold pickHostSideSentMatch at h
    split at h
    · cases h
    · rename_i p heq
      dsimp only at h
      injection h with h2
      subst h2
      exact heq
  have hget : ∃ r, hst.records.get? idx = some r := by
    rcases pickBest_cases _ _ _ hbest with hc | hc
    · exact pickBestDirect_get seq re rp hst g idx d hc
    · exact pickBestByTime_get re rp hst g idx d hc
  obtain ⟨r, hr⟩ := hget
  refine ⟨r, hr, ?_⟩
  have hrec2 : (pickHostSideSentMatch seq re rp hst g).2.records
      = hst.records.enum.map
        (fun p => if p.1 = idx then { p.2 with matched := true } else p.2) := by
    unfold pickHostSideSentMatch
    rw [hbest]
  rw [hrec2, get?_enum_map, hr]
  simp

/-- Appending a sample without a finite latency leaves the success-latency
sample set unchanged. -/
theorem successSamples_append_none (l : List PingSample) (smp : PingSample)
    (h : smp.latencyMs = none) :
    successSamples (l ++ [smp]) = successSamples l := by
  unfold successSamples
  rw [List.filter_append, List.filter_cons]
  simp [h]

end IqooDebug.Ping

namespace IqooDebug.Analyzer

/-- Membership through the score-descending insertion. -/
theorem mem_insertEntryByScoreDesc (x a : CauseEntry) (l : List CauseEntry) :
    a ∈ insertEntryByScoreDesc x l ↔ a = x ∨ a ∈ l := by
  induction l with
  | nil => simp [insertEntryByScoreDesc]
  | cons y t ih =>
    by_cases h : x.score ≥ y.score
    · simp [insertEntryByScoreDesc, h]
    · simp only [insertEntryByScoreDesc, if_neg h, List.mem_cons, ih]
      tauto

/-- Sorting by descending score preserves membership. -/
theorem mem_sortEntriesByScoreDesc (a : CauseEntry) (l : List CauseEntry) :
    a ∈ sortEntriesByScoreDesc l ↔ a ∈ l := by
  induction l with
  | nil => simp [sortEntriesByScoreDesc]
  | cons y t ih =>
    simp only [sortEntriesByScoreDesc, List.foldr_cons, List.mem_cons]
    rw [mem_insertEntryByScoreDesc]
    simp only [sortEntriesByScoreDesc] at ih
    rw [ih]

/-- The empty ranking evaluates to the four zero-score entries. -/
theorem buildCauseRanking_empty_eval :
    buildCauseRanking emptyCauseInputs =
      [mkCauseEntry false "network_path_jitter" 0 0 0 [],
       mkCauseEntry false "rtt_variance_burst" 0 0 0 [],
       mkCauseEntry false "decode_render_overload" 0 0 0 [],
       mkCauseEntry false "system_transition_interference" 0 0 0 []] := by
  norm_num [buildCauseRanking, emptyCauseInputs, mkCauseEntry, clamp01,
    normalize, normalizeOpt, average, jsOr, jsCountOr, computeScore,
    ensureEvidenceRows, ensureEvidenceRowsGo, appendEvidenceRow,
    pickMetricEvidence, pickSystemEvidence, samplesGet, sysTimesGet,
    sortSamplesByTs, sortRowsByValueDesc, sortBurstsByMaxDesc, summaryFind,
    nearFind, sysNearGet, emptySummaryStats, emptyNearStats, keySystemTypes,
    sortEntriesByScoreDesc, insertEntryByScoreDesc,
    buildScoreBreakdownEvidence, List.find?]

/-- `scoreToLevel` returns `high` exactly at scores at least 0.70. -/
theorem scoreToLevel_high_iff (s : ℚ) :
    scoreToLevel s = Level.high ↔ 7/10 ≤ s := by
  unfold scoreToLevel
  split_ifs with h1 h2 <;> simp_all

/-- `scoreToLevel` returns `medium` exactly on `[0.45, 0.70)`. -/
theorem scoreToLevel_medium_iff (s : ℚ) :
    scoreToLevel s = Level.medium ↔ 45/100 ≤ s ∧ s < 7/10 := by
  unfold scoreToLevel
  split_ifs with h1 h2 <;> simp_all

/-- `scoreToLevel` returns `low` exactly below 0.45. -/
theorem scoreToLevel_low_iff (s : ℚ) :
    scoreToLevel s = Level.low ↔ s < 45/100 := by
  unfold scoreToLevel
  split_ifs with h1 h2 <;> simp_all
  linarith

/-- Every member of the ranking is one of the four `mkCauseEntry` records,
with evidence produced by `ensureEvidenceRows … 3 5`. -/
theorem mem_buildCauseRanking (inp : CauseInputs) (e : CauseEntry)
    (he : e ∈ buildCauseRanking inp) :
    ∃ c o l i p f,
      e = mkCauseEntry inp.degraded c o l i (ensureEvidenceRows p f 3 5) := by
  simp only [buildCauseRanking] at he
  rw [mem_sortEntriesByScoreDesc] at he
  simp only [List.mem_cons, List.not_mem_nil, or_false] at he
  rcases he with h | h | h | h
  · exact ⟨_, _, _, _, _, _, h⟩
  · exact ⟨_, _, _, _, _, _, h⟩
  · exact ⟨_, _, _, _, _, _, h⟩
  · exact ⟨_, _, _, _, _, _, h⟩

/-- Appending one evidence row grows the list by at most one. -/
theorem length_appendEvidenceRow (out : List EvidenceRow) (r : EvidenceRow) :
    (appendEvidenceRow out r).length ≤ out.length + 1 := by
  unfold appendEvidenceRow
  split_ifs <;> simp

/-- The bounded evidence loop never exceeds `m` rows when it starts within
`m` rows. -/
theorem length_ensureEvidenceRowsGo (m : Nat) :
    ∀ (rows : List EvidenceRow) (out : List EvidenceRow),
      out.length ≤ m → (ensureEvidenceRowsGo m out rows).length ≤ m := by
  intro rows
  induction rows with
  | nil => intro out h; exact h
  | cons r rest ih =>
    intro out h
    unfold ensureEvidenceRowsGo
    split_ifs with hfull
    · exact h
    · exact ih _ (le_trans (length_appendEvidenceRow out r)
        (Nat.succ_le_of_lt (lt_of_not_le hfull)))

/-- Appending one evidence row preserves key-uniqueness. -/
theorem nodup_appendEvidenceRow (out : List EvidenceRow) (r : EvidenceRow)
    (h : (out.map rowKey).Nodup) :
    ((appendEvidenceRow out r).map rowKey).Nodup := by
  unfold appendEvidenceRow
  split_ifs with h1 h2
  · exact h
  · exact h
  · simp only [List.map_append, List.map_cons, List.map_nil]
    rw [List.nodup_append]
    refine ⟨h, List.nodup_singleton _, ?_⟩
    intro a ha hb
    simp only [List.mem_singleton] at hb
    exact h2 (hb ▸ ha)

/-- The bounded evidence loop preserves key-uniqueness. -/
theorem nodup_ensureEvidenceRowsGo (m : Nat) :
    ∀ (rows : List EvidenceRow) (out : List EvidenceRow),
      (out.map rowKey).Nodup →
      ((ensureEvidenceRowsGo m out rows).map rowKey).Nodup := by
  intro rows
  induction rows with
  | nil => intro out h; exact h
  | cons r rest ih =>
    intro out h
    unfold ensureEvidenceRowsGo
    split_ifs with hfull
    · exact h
    · exact ih _ (nodup_appendEvidenceRow out r h)

/-- `ensureEvidenceRows` emits at most `maxCount` rows with pairwise
distinct `(ts, metric, detail)` keys. -/
theorem ensureEvidenceRows_le_nodup (p f : List EvidenceRow)
    (minCount maxCount : Nat) :
    (ensureEvidenceRows p f minCount maxCount).length ≤ maxCount ∧
    ((ensureEvidenceRows p f minCount maxCount).map rowKey).Nodup := by
  simp only [ensureEvidenceRows]
  constructor
  · exact le_trans (List.length_take_le _ _) (le_refl _)
  · have hbase : ((ensureEvidenceRowsGo maxCount [] p).map rowKey).Nodup :=
      nodup_ensureEvidenceRowsGo maxCount p [] (by simp)
    have h2 : ((if (ensureEvidenceRowsGo maxCount [] p).length < minCount then
          ensureEvidenceRowsGo maxCount (ensureEvidenceRowsGo maxCount [] p) f
        else ensureEvidenceRowsGo maxCount [] p).map rowKey).Nodup := by
      split_ifs
      · exact nodup_ensureEvidenceRowsGo maxCount f _ hbase
      · exact hbase
    rw [List.map_take]
    exact h2.sublist (List.take_sublist _ _)

/-- When the primary pass already yields `minCount` rows, the fallback rows
are never consulted. -/
theorem ensureEvidenceRows_primary_only (p f : List EvidenceRow)
    (minCount maxCount : Nat)
    (hp : minCount ≤ (ensureEvidenceRowsGo maxCount [] p).length) :
    ensureEvidenceRows p f minCount maxCount =
      ensureEvidenceRowsGo maxCount [] p := by
  simp only [ensureEvidenceRows]
  rw [if_neg (not_lt.2 hp)]
  exact List.take_of_length_le (length_ensureEvidenceRowsGo maxCount p [] (by simp))

/-- The head entry of the empty-input ranking belongs to it, used to
instantiate the membership hypotheses concretely. -/
theorem network_entry_mem_empty :
    networkEntry0 ∈ buildCauseRanking emptyCauseInputs := by
  rw [buildCauseRanking_empty_eval]
  exact List.mem_cons_self _ _

end IqooDebug.Analyzer

namespace IqooDebug
open StreamPhase EventStore

/-- Helper characterisation of the dedup scan over a descending
(reverse-sorted) prior list: it accepts exactly when every prior entry is
more than `tol` away. -/
theorem dedupScanOk_iff (tol ms : Int) (htol : 0 < tol) :
    ∀ rev : List Int, rev.Pairwise (fun a b => b ≤ a) →
      (dedupScanOk tol ms rev = true ↔ ∀ t ∈ rev, tol < (ms - t).natAbs) := by
  intro rev
  induction rev with
  | nil => intro _; simp [dedupScanOk]
  | cons t rest ih =>
    intro hpw
    rw [List.pairwise_cons] at hpw
    obtain ⟨hhead, htail⟩ := hpw
    by_cases hnear : (ms - t).natAbs ≤ tol.toNat
    · simp only [dedupScanOk, if_pos hnear]
      constructor
      · intro h; cases h
      · intro hall
        exfalso
        have := hall t (List.mem_cons_self t rest)
        omega
    · simp only [dedupScanOk, if_neg hnear]
      by_cases hbreak : ms - t > tol
      · simp only [if_pos hbreak]
        constructor
        · intro _ u hu
          rcases List.mem_cons.mp hu with h | h
          · subst h; omega
          · have hut : u ≤ t := hhead u h
            omega
        · intro _; trivial
      · simp only [if_neg hbreak]
        rw [ih htail]
        constructor
        · intro hall u hu
          rcases List.mem_cons.mp hu with h | h
          · subst h; omega
          · exact hall u h
        · intro hall u hu
          exact hall u (List.mem_cons_of_mem t hu)

/-- C4 counterexample: the claim states that a ROAM event is accepted only
when no previously accepted ROAM lies within 3000 ms, regardless of whether
it came from logcat classification or dumpsys transition detection.  But
`parseLogcatFile` inserts with the default tolerance 0: a logcat ROAM at
t = 0 ms and another at t = 1000 ms are both accepted even though they are
only 1000 ms apart. -/
theorem addEvent_logcat_roam_counterexample :
    (EventStore.logcatAddEvent [] 0).1 = true
    ∧ (EventStore.logcatAddEvent (EventStore.logcatAddEvent [] 0).2 1000).1 = true
    ∧ ((1000 : Int) - 0).natAbs ≤ 3000 := by
  refine ⟨rfl, ?_, by decide⟩
  rfl

/-- C4 (amended): the event store's near-duplicate suppression accepts an
event exactly when no previously accepted event of the same type lies
within the insertion's tolerance — but the tolerance is chosen per call
site, not per type: dumpsys-transition insertions pass the per-type
tolerances (e.g. 3000 ms for ROAM via `addWifiTransitions`), while
logcat-classified insertions use the default tolerance 0 and therefore
always accept. -/
theorem addEvent_tolerance_spec (list : List Int) (ts tol : Int)
    (hsorted : list.Pairwise (· ≤ ·)) (htol : 0 < tol) :
    ((EventStore.addEvent list ts tol).1 = true ↔
        ∀ t ∈ list, tol < ((ts - t).natAbs : Int))
    ∧ (EventStore.logcatAddEvent list ts).1 = true
    ∧ ((EventStore.dumpsysAddRoam list ts).1 = true ↔
        ∀ t ∈ list, 3000 < ((ts - t).natAbs : Int)) := by
  have hrev : list.reverse.Pairwise (fun a b => b ≤ a) := by
    rw [List.pairwise_reverse]
    exact hsorted
  have key : ∀ tol2 : Int, 0 < tol2 →
      ((EventStore.addEvent list ts tol2).1 = true ↔
        ∀ t ∈ list, tol2 < ((ts - t).natAbs : Int)) := by
    intro tol2 htol2
    unfold EventStore.addEvent
    by_cases hscan : EventStore.dedupScanOk tol2 ts list.reverse = true
    · have : ¬ (tol2 > 0 ∧ ¬ EventStore.dedupScanOk tol2 ts list.reverse) := by
        intro h; exact h.2 hscan
      rw [if_neg this]
      simp only [true_iff]
      intro t ht
      have := (dedupScanOk_iff tol2 ts htol2 list.reverse hrev).mp hscan
      have := this t (List.mem_reverse.mpr ht)
      omega
    · have : (tol2 > 0 ∧ ¬ EventStore.dedupScanOk tol2 ts list.reverse) := by
        exact ⟨htol2, fun h => hscan h⟩
      rw [if_pos this]
      simp only [Bool.false_eq_true, false_iff]
      intro hall
      apply hscan
      rw [dedupScanOk_iff tol2 ts htol2 list.reverse hrev]
      intro t ht
      have := hall t (List.mem_reverse.mp ht)
      omega
  refine ⟨key tol htol, ?_, key 3000 (by norm_num)⟩
  unfold EventStore.logcatAddEvent EventStore.addEvent
  rw [if_neg]
  intro h
  exact absurd h.1 (by norm_num)

/-- C4 amended-claim witness at a concrete store: priors at 0 and 5000 ms,
candidate ROAM at 9000 ms with tolerance 3000 is accepted because both
priors are more than 3000 ms away. -/
theorem addEvent_tolerance_spec_witness :
    (EventStore.addEvent [0, 5000] 9000 3000).1 = true
    ∧ (EventStore.logcatAddEvent [0, 5000] 9000).1 = true := by
  have h := addEvent_tolerance_spec [0, 5000] 9000 3000 (by decide) (by decide)
  refine ⟨h.1.mpr ?_, h.2.1⟩
  decide

/-- C3 counterexample: the claim states that in mode `all` every merged
window is accepted as valid, but `scoreWindow` applies the same base gate
in mode `all` as in `auto`: a window with a strong start marker whose
duration is only 5000 ms (< 20 s) is rejected even in mode `all`. -/
theorem scoreWindow_all_counterexample :
    StreamPhase.scoreWindowValid
      { startTs := 0, endTs := 5000, hasStrongStart := true,
        hasStartMarker := true, hasEndMarker := true, activityCount := 10 }
      StreamPhase.Mode.all = false := by
  decide

/-- C3 (amended): the validity gate is
`hasStartMarker ∧ (hasStrongStart ∨ activityCount ≥ 6) ∧ durationMs ≥ 20 s`
in modes `auto` and `all` alike, and strict mode additionally requires
`hasStrongStart`; mode `all` does not bypass the gate (it only suppresses
the degraded flag in `detectStreamingPhases`). -/
theorem scoreWindow_valid_spec (w : StreamPhase.RawWindow) :
    (StreamPhase.scoreWindowValid w StreamPhase.Mode.auto
      = StreamPhase.scoreWindowBaseValid w)
    ∧ (StreamPhase.scoreWindowValid w StreamPhase.Mode.all
      = StreamPhase.scoreWindowBaseValid w)
    ∧ (StreamPhase.scoreWindowValid w StreamPhase.Mode.strict
      = (StreamPhase.scoreWindowBaseValid w && w.hasStrongStart))
    ∧ (StreamPhase.scoreWindowBaseValid w = true ↔
        (w.hasStartMarker = true
          ∧ (w.hasStrongStart = true ∨ 6 ≤ w.activityCount)
          ∧ 20000 ≤ w.endTs - w.startTs)) := by
  refine ⟨rfl, rfl, rfl, ?_⟩
  unfold StreamPhase.scoreWindowBaseValid
  simp only [Bool.and_eq_true, Bool.or_eq_true, decide_eq_true_eq,
    StreamPhase.MIN_VALID_ACTIVITY_COUNT, StreamPhase.MIN_VALID_DURATION_MS]
  constructor
  · rintro ⟨⟨hs, hact⟩, hdur⟩
    exact ⟨hs, hact, by omega⟩
  · rintro ⟨hs, hact, hdur⟩
    exact ⟨⟨hs, hact⟩, by omega⟩

/-- C6: on any parsed ping log with at least one successful sample, the
high-latency threshold is `max(15, median(success latencies) + 8)`, hence
at least 15, and every sample in `highLatencyEvents` has latency at least
the threshold. -/
theorem highLatency_threshold_spec (samples : List Ping.PingSample)
    (h : Ping.successSamples samples ≠ []) :
    ∃ t, Ping.highLatencyThreshold samples = some t
      ∧ t = max 15 (jsOr (Ping.median (Ping.sortAsc
          ((Ping.successSamples samples).map (fun x => x.latencyMs.getD 0)))) 0 + 8)
      ∧ 15 ≤ t
      ∧ ∀ x ∈ Ping.highLatencySamples samples, t ≤ x.latencyMs.getD 0 := by
  cases hss : Ping.successSamples samples with
  | nil => exact absurd hss h
  | cons a as =>
    have hthr : Ping.highLatencyThreshold samples
        = some (max 15 (jsOr (Ping.median (Ping.sortAsc
            ((a :: as).map (fun x => x.latencyMs.getD 0)))) 0 + 8)) := by
      unfold Ping.highLatencyThreshold
      rw [hss]
    refine ⟨_, hthr, rfl, le_max_left _ _, ?_⟩
    intro x hx
    unfold Ping.highLatencySamples at hx
    rw [hthr] at hx
    have hmem := List.of_mem_filter hx
    exact of_decide_eq_true hmem

/-- C6 witness: a single successful sample of 30 ms gives threshold
`max(15, 30 + 8) = 38`. -/
theorem highLatency_threshold_spec_witness :
    ∃ t, Ping.highLatencyThreshold
        [{ ts := 0, seq := some 1, success := true, latencyMs := some 30,
           status := .reply, tsSource := .ping_D }] = some t
      ∧ t = max 15 (jsOr (Ping.median (Ping.sortAsc
          ((Ping.successSamples
            [{ ts := 0, seq := some 1, success := true, latencyMs := some 30,
               status := .reply, tsSource := .ping_D }]).map
              (fun x => x.latencyMs.getD 0)))) 0 + 8)
      ∧ 15 ≤ t
      ∧ ∀ x ∈ Ping.highLatencySamples
          [{ ts := 0, seq := some 1, success := true, latencyMs := some 30,
             status := .reply, tsSource := .ping_D }],
          t ≤ x.latencyMs.getD 0 :=
  highLatency_threshold_spec _ (by decide)

/-- C7: `buildHighLatencyBursts` partitions the time-sorted high-latency
samples into maximal runs: the bursts are the gap-chunks rendered as burst
records, the chunks concatenate back to the samples (each sample in
exactly one burst, in order), consecutive samples inside a chunk are at
most 1200 ms apart, consecutive chunks are separated by more than 1200 ms,
and each burst reports the run's sample count, maximum latency and average
latency. -/
theorem buildHighLatencyBursts_partition (hs : List Ping.HLSample)
    (hsorted : hs.Chain' (fun a b => a.ts ≤ b.ts)) :
    Ping.buildHighLatencyBursts hs 1200
        = (Ping.gapChunks 1200 hs).map Ping.mkBurst
    ∧ (Ping.gapChunks 1200 hs).flatten = hs
    ∧ (∀ c ∈ Ping.gapChunks 1200 hs, c ≠ []
        ∧ c.Chain' (fun a b => b.ts - a.ts ≤ 1200))
    ∧ List.Chain'
        (fun c1 c2 => ∀ x ∈ c1.getLast?, ∀ y ∈ c2.head?, 1200 < y.ts - x.ts)
        (Ping.gapChunks 1200 hs)
    ∧ (∀ c ∈ Ping.gapChunks 1200 hs,
        (Ping.mkBurst c).count = c.length
        ∧ (Ping.mkBurst c).maxLatencyMs = Ping.chunkMax c
        ∧ (Ping.mkBurst c).avgLatencyMs
            = (c.map (fun s => s.latencyMs)).sum / c.length) := by
  cases hs with
  | nil =>
    refine ⟨rfl, rfl, ?_, ?_, ?_⟩ <;> simp [Ping.gapChunks]
  | cons a rest =>
    refine ⟨?_, ?_, ?_, ?_, ?_⟩
    · show Ping.buildGo 1200 (Ping.initAcc a) rest = _
      rw [← Ping.accOf_singleton, Ping.buildGo_eq_chunkGo 1200 rest [a] (by simp)]
      rfl
    · exact Ping.chunkGo_join 1200 rest [a] a
    · intro c hc
      exact ⟨Ping.chunkGo_ne_nil 1200 rest [a] a (by simp) c hc,
        Ping.chunkGo_chain 1200 rest [a] a (by simp) rfl
          (List.chain'_singleton a) c hc⟩
    · exact Ping.chunkGo_boundary 1200 rest [a] a (by simp) rfl
    · intro c hc
      exact ⟨rfl, rfl, rfl⟩

/-- C5 counterexample: the claim requires that, with no uniform prefix and
no bracketed timestamp, a sample is estimated only when "the line carries
a sequence number", and is otherwise skipped into `skippedNoTsCount`.
A Windows-style reply line carrying only `time=11.2 ms` (no `icmp_seq`)
with a known capture start is NOT skipped: the parser synthesises
`seq = derivedSeq + 1` and emits a `seq_estimated` sample. -/
theorem devicePing_ts_counterexample :
    (Ping.deviceLineStep (some 1700000000000) (1/5)
        { derivedSeq := 0, skippedNoTsCount := 0, successCount := 0,
          failureCount := 0, samples := [] }
        { prefixEpochMs := none, bracketSec := none, seqTime := none,
          timeOnly := some (56/5), seqOnly := none })
      = { derivedSeq := 1, skippedNoTsCount := 0, successCount := 1,
          failureCount := 0,
          samples := [({ ts := 1700000000000, seq := some 1,
                         success := true, latencyMs := some (56/5),
                         status := Ping.Status.reply,
                         tsSource := Ping.TsSource.seq_estimated }
                        : Ping.PingSample)] } := by
  norm_num [Ping.deviceLineStep, Ping.pushSample, jsRound,
    Ping.ParserState.mk.injEq, Ping.PingSample.mk.injEq]
  simp

/-- C5 (amended): on the device dialect, timestamp selection follows the
priority: uniform-prefix `epoch_ms` (`log_prefix_epoch`), then a bracketed
absolute-seconds token (`ping_D`), then a capture-start estimate
`captureStartTs + round((seq - 1) · intervalSec · 1000)` using the line's
sequence number — or, for a latency-bearing line without one, the next
derived sequence number (`seq_estimated`) — and otherwise the sample is
skipped and counted under `skippedNoTsCount`. -/
theorem devicePing_ts_priority (captureStartTs : Option Int)
    (intervalSec : ℚ) (st : Ping.ParserState) (line : Ping.DeviceLine) :
    (line.seqTime = none ∧ line.seqOnly = none ∧ line.timeOnly = none →
      Ping.deviceLineStep captureStartTs intervalSec st line = st)
    ∧ (¬(line.seqTime = none ∧ line.seqOnly = none ∧ line.timeOnly = none) →
      (∀ e, line.prefixEpochMs = some e →
        ∃ smp : Ping.PingSample,
          (Ping.deviceLineStep captureStartTs intervalSec st line).samples
            = st.samples ++ [smp]
          ∧ smp.ts = e ∧ smp.tsSource = .log_prefix_epoch)
      ∧ (∀ sec, line.prefixEpochMs = none → line.bracketSec = some sec →
        ∃ smp : Ping.PingSample,
          (Ping.deviceLineStep captureStartTs intervalSec st line).samples
            = st.samples ++ [smp]
          ∧ smp.ts = jsRound (sec * 1000) ∧ smp.tsSource = .ping_D)
      ∧ (∀ cs, line.prefixEpochMs = none → line.bracketSec = none →
          captureStartTs = some cs →
        ∃ smp : Ping.PingSample,
          (Ping.deviceLineStep captureStartTs intervalSec st line).samples
            = st.samples ++ [smp]
          ∧ smp.tsSource = .seq_estimated
          ∧ smp.ts = cs + jsRound ((((match line.seqTime with
              | some p => p.1
              | none => match line.seqOnly with
                | some s => s
                | none => st.derivedSeq + 1 : Int) : ℚ) - 1)
              * intervalSec * 1000))
      ∧ (line.prefixEpochMs = none → line.bracketSec = none →
          captureStartTs = none →
          (Ping.deviceLineStep captureStartTs intervalSec st line).samples
            = st.samples
          ∧ (Ping.deviceLineStep captureStartTs intervalSec st
              line).skippedNoTsCount = st.skippedNoTsCount + 1)) := by
  obtain ⟨pe, bs, stq, tOnly, so⟩ := line
  constructor
  · rintro ⟨h1, h2, h3⟩
    simp only at h1 h2 h3
    subst h1; subst h2; subst h3
    simp [Ping.deviceLineStep]
  · intro hatt
    have hcase : stq.isSome ∨ (stq = none ∧ (so.isSome ∨ tOnly.isSome)) := by
      rcases stq with _ | p
      · rcases so with _ | s
        · rcases tOnly with _ | t
          · exact absurd ⟨rfl, rfl, rfl⟩ hatt
          · exact Or.inr ⟨rfl, Or.inr rfl⟩
        · exact Or.inr ⟨rfl, Or.inl rfl⟩
      · exact Or.inl rfl
    refine ⟨?_, ?_, ?_, ?_⟩
    · intro e he
      simp only at he
      subst he
      rcases stq with _ | p
      · rcases so with _ | s
        · rcases tOnly with _ | t
          · exact absurd ⟨rfl, rfl, rfl⟩ hatt
          · exact ⟨_, rfl, by rfl, by rfl⟩
        · rcases tOnly with _ | t
          · exact ⟨_, rfl, by rfl, by rfl⟩
          · exact ⟨_, rfl, by rfl, by rfl⟩
      · exact ⟨_, rfl, by rfl, by rfl⟩
    · intro sec he hb
      simp only at he hb
      subst he; subst hb
      rcases stq with _ | p
      · rcases so with _ | s
        · rcases tOnly with _ | t
          · exact absurd ⟨rfl, rfl, rfl⟩ hatt
          · exact ⟨_, rfl, by rfl, by rfl⟩
        · rcases tOnly with _ | t
          · exact ⟨_, rfl, by rfl, by rfl⟩
          · exact ⟨_, rfl, by rfl, by rfl⟩
      · exact ⟨_, rfl, by rfl, by rfl⟩
    · intro cs he hb hcs
      simp only at he hb
      subst he; subst hb; subst hcs
      rcases stq with _ | p
      · rcases so with _ | s
        · rcases tOnly with _ | t
          · exact absurd ⟨rfl, rfl, rfl⟩ hatt
          · exact ⟨_, rfl, by rfl, by rfl⟩
        · rcases tOnly with _ | t
          · exact ⟨_, rfl, by rfl, by rfl⟩
          · exact ⟨_, rfl, by rfl, by rfl⟩
      · exact ⟨_, rfl, by rfl, by rfl⟩
    · intro he hb hcs
      simp only at he hb
      subst he; subst hb; subst hcs
      rcases stq with _ | p
      · rcases so with _ | s
        · rcases tOnly with _ | t
          · exact absurd ⟨rfl, rfl, rfl⟩ hatt
          · exact ⟨by rfl, by rfl⟩
        · rcases tOnly with _ | t
          · exact ⟨by rfl, by rfl⟩
          · exact ⟨by rfl, by rfl⟩
      · exact ⟨by rfl, by rfl⟩

/-- C5 amended-claim witness at the three scenario lines: a prefixed line
with `epoch_ms`, an unprefixed `ping -D` line, and a bare line with a
sequence number under a known capture start. -/
theorem devicePing_ts_priority_witness :
    ∃ smp : Ping.PingSample,
      (Ping.deviceLineStep (some 1700000000000) (1/5)
          { derivedSeq := 0, skippedNoTsCount := 0, successCount := 0,
            failureCount := 0, samples := [] }
          { prefixEpochMs := some 1700000000000, bracketSec := none,
            seqTime := some (1, 56/5), timeOnly := none,
            seqOnly := none }).samples
        = [] ++ [smp]
      ∧ smp.ts = 1700000000000 ∧ smp.tsSource = .log_prefix_epoch :=
  ((devicePing_ts_priority (some 1700000000000) (1/5)
      { derivedSeq := 0, skippedNoTsCount := 0, successCount := 0,
        failureCount := 0, samples := [] }
      { prefixEpochMs := some 1700000000000, bracketSec := none,
        seqTime := some (1, 56/5), timeOnly := none,
        seqOnly := none }).2 (by simp)).1 1700000000000 rfl

/-- C7 witness: three sorted high-latency samples, the third more than
1200 ms after the second, split into two bursts covering all samples. -/
theorem buildHighLatencyBursts_partition_witness :
    (Ping.gapChunks 1200
        [⟨0, some 1, 30⟩, ⟨1000, some 2, 40⟩, ⟨3000, some 3, 50⟩]).flatten
      = [⟨0, some 1, 30⟩, ⟨1000, some 2, 40⟩, ⟨3000, some 3, 50⟩] :=
  (buildHighLatencyBursts_partition
    [⟨0, some 1, 30⟩, ⟨1000, some 2, 40⟩, ⟨3000, some 3, 50⟩]
    (by simp [List.chain'_cons, List.chain'_singleton])).2.1

/-- C8: the effective windows are the merged expansions of the valid
stream windows: the emitted list is the merged list with 1-based ids; the
merged windows are sorted and pairwise disjoint, contained in
`[captureStart, captureEnd]` and well-formed; each merged window takes its
start and its end from expanded windows; every expanded window is the
clip-expansion of a valid window; and every expanded window is contained
in some merged window. -/
theorem buildEffectiveWindows_spec (validWindows : List StreamPhase.ValidWindow)
    (preBufferSec postBufferSec clockSkewToleranceSec : ℚ)
    (preMs postMs skewMs : ℚ)
    (hpre : preMs = max 0 (preBufferSec * 1000))
    (hpost : postMs = max 0 (postBufferSec * 1000))
    (hskew : skewMs = max 0 (clockSkewToleranceSec * 1000))
    (a b : ℚ) (hab : a ≤ b) :
    (StreamPhase.buildEffectiveWindows validWindows preBufferSec postBufferSec
        clockSkewToleranceSec (some a) (some b)
      = (StreamPhase.mergedWindows validWindows preMs postMs skewMs
          (some a) (some b)).enum.map
          (fun p => { id := p.1 + 1, startTs := p.2.startTs,
                      endTs := p.2.endTs }))
    ∧ (StreamPhase.mergedWindows validWindows preMs postMs skewMs
        (some a) (some b)).Chain' (fun u v => u.endTs < v.startTs)
    ∧ (∀ m ∈ StreamPhase.mergedWindows validWindows preMs postMs skewMs
          (some a) (some b),
        a ≤ m.startTs ∧ m.endTs ≤ b ∧ m.startTs ≤ m.endTs)
    ∧ (∀ m ∈ StreamPhase.mergedWindows validWindows preMs postMs skewMs
          (some a) (some b),
        (∃ e ∈ StreamPhase.expandedWindows validWindows preMs postMs skewMs
            (some a) (some b), m.startTs = e.startTs)
        ∧ (∃ e ∈ StreamPhase.expandedWindows validWindows preMs postMs skewMs
            (some a) (some b), m.endTs = e.endTs))
    ∧ (∀ e ∈ StreamPhase.expandedWindows validWindows preMs postMs skewMs
          (some a) (some b),
        (∃ v ∈ validWindows,
          e = StreamPhase.expandWindow preMs postMs skewMs (some a) (some b) v)
        ∧ e.startTs ≤ e.endTs)
    ∧ (∀ e ∈ StreamPhase.expandedWindows validWindows preMs postMs skewMs
          (some a) (some b),
        ∃ m ∈ StreamPhase.mergedWindows validWindows preMs postMs skewMs
          (some a) (some b),
        m.startTs ≤ e.startTs ∧ e.endTs ≤ m.endTs) := by
  subst hpre; subst hpost; subst hskew
  have hE : ∀ e ∈ StreamPhase.expandedWindows validWindows
      (max 0 (preBufferSec * 1000)) (max 0 (postBufferSec * 1000))
      (max 0 (clockSkewToleranceSec * 1000)) (some a) (some b),
      (∃ v ∈ validWindows,
        e = StreamPhase.expandWindow (max 0 (preBufferSec * 1000))
          (max 0 (postBufferSec * 1000)) (max 0 (clockSkewToleranceSec * 1000))
          (some a) (some b) v)
      ∧ e.startTs ≤ e.endTs := by
    intro e he
    rw [StreamPhase.expandedWindows, StreamPhase.mem_sortByStartTs,
      List.mem_filter] at he
    obtain ⟨hmem, hwf⟩ := he
    obtain ⟨v, hv, hev⟩ := List.mem_map.mp hmem
    exact ⟨⟨v, hv, hev.symm⟩, of_decide_eq_true hwf⟩
  have hEbounds : ∀ e ∈ StreamPhase.expandedWindows validWindows
      (max 0 (preBufferSec * 1000)) (max 0 (postBufferSec * 1000))
      (max 0 (clockSkewToleranceSec * 1000)) (some a) (some b),
      a ≤ e.startTs ∧ e.endTs ≤ b ∧ e.startTs ≤ e.endTs := by
    intro e he
    obtain ⟨⟨v, _, hev⟩, hwf⟩ := hE e he
    subst hev
    exact ⟨(StreamPhase.clipDate_mem _ a b hab).1,
      (StreamPhase.clipDate_mem _ a b hab).2, hwf⟩
  refine ⟨?_, ?_, ?_, ?_, hE, ?_⟩
  · cases validWindows with
    | nil => rfl
    | cons v vs => rfl
  all_goals {
    rw [StreamPhase.mergedWindows]
    rcases hEeq : StreamPhase.expandedWindows validWindows
        (max 0 (preBufferSec * 1000)) (max 0 (postBufferSec * 1000))
        (max 0 (clockSkewToleranceSec * 1000)) (some a) (some b)
      with _ | ⟨first, rest⟩
    · first
      | exact List.chain'_nil
      | (intro x hx; cases hx)
    · have hpw := StreamPhase.pairwise_sortByStartTs
        ((validWindows.map (StreamPhase.expandWindow
            (max 0 (preBufferSec * 1000)) (max 0 (postBufferSec * 1000))
            (max 0 (clockSkewToleranceSec * 1000)) (some a) (some b))).filter
          (fun w => w.startTs ≤ w.endTs))
      rw [show StreamPhase.sortByStartTs
          ((validWindows.map (StreamPhase.expandWindow
              (max 0 (preBufferSec * 1000)) (max 0 (postBufferSec * 1000))
              (max 0 (clockSkewToleranceSec * 1000)) (some a) (some b))).filter
            (fun w => w.startTs ≤ w.endTs))
          = StreamPhase.expandedWindows validWindows
              (max 0 (preBufferSec * 1000)) (max 0 (postBufferSec * 1000))
              (max 0 (clockSkewToleranceSec * 1000)) (some a) (some b) from rfl,
        hEeq] at hpw
      rw [List.pairwise_cons] at hpw
      obtain ⟨hfirst, hrest⟩ := hpw
      rw [hEeq] at hE hEbounds
      first
      | exact StreamPhase.mergeGo_disjoint rest first hrest hfirst
      | ( -- bounds / provenance / coverage goals
        first
        | (intro m hm
           refine StreamPhase.mergeGo_preserve
             (fun w => a ≤ w.startTs ∧ w.endTs ≤ b ∧ w.startTs ≤ w.endTs)
             ?_ rest first ?_ ?_ m hm
           · rintro u v ⟨hua, hub, huw⟩ ⟨hva, hvb, hvw⟩
             refine ⟨hua, ?_, ?_⟩ <;> dsimp only <;> split
             · exact hvb
             · exact hub
             · exact le_trans huw (le_of_lt (by assumption))
             · exact huw
           · exact hEbounds first (List.mem_cons_self _ _)
           · exact fun w hw => hEbounds w (List.mem_cons_of_mem _ hw))
        | (intro m hm
           refine StreamPhase.mergeGo_preserve
             (fun w => (∃ e ∈ (first :: rest), w.startTs = e.startTs)
               ∧ (∃ e ∈ (first :: rest), w.endTs = e.endTs))
             ?_ rest first ?_ ?_ m hm
           · rintro u v ⟨hus, hue⟩ ⟨hvs, hve⟩
             refine ⟨hus, ?_⟩
             dsimp only
             split
             · exact hve
             · exact hue
           · exact ⟨⟨first, List.mem_cons_self _ _, rfl⟩,
               ⟨first, List.mem_cons_self _ _, rfl⟩⟩
           · exact fun w hw => ⟨⟨w, List.mem_cons_of_mem _ hw, rfl⟩,
               ⟨w, List.mem_cons_of_mem _ hw, rfl⟩⟩)
        | (intro e he
           have hcov := StreamPhase.mergeGo_covers rest first hrest hfirst
           rcases List.mem_cons.mp he with he | he
           · subst he
             exact hcov.1
           · exact hcov.2 e he))
  }

/-- C10: a host-side RCVD line always pushes a sample with `success = true`
and `status = reply` (its timestamp the prefix epoch), incrementing
`successCount`, even when no SENT match is accepted or the matched delta
exceeds the 60000 ms cap — in those cases `latencyMs` is `null` and the
sample is excluded from the success-latency statistics (which filter on a
finite latency); and the SENT record chosen by the matcher is marked
`matched` even when its delta exceeds the 60000 ms cap. -/
theorem hostSideRcvd_reply_spec (captureStartTs : Option Int)
    (intervalSec : ℚ) (e : Int) (rcvdElapsedSec : ℚ) (rcvdSeq : Option Int)
    (hst : Ping.HostSideState) (st : Ping.ParserState) (maxGapMs : Int)
    (res : Ping.HostSideState × Ping.ParserState)
    (hres : res = Ping.hostSideRcvdStep captureStartTs intervalSec (some e)
      rcvdElapsedSec rcvdSeq hst st maxGapMs)
    (pk : Option (Nat × Int) × Ping.HostSideState)
    (hpk : pk = Ping.pickHostSideSentMatch rcvdSeq
      (some (jsRound (rcvdElapsedSec * 1000))) (some e) hst maxGapMs) :
    (∃ smp : Ping.PingSample,
      res.2.samples = st.samples ++ [smp]
      ∧ smp.success = true ∧ smp.status = .reply ∧ smp.ts = e
      ∧ res.2.successCount = st.successCount + 1
      ∧ (pk.1 = none → smp.latencyMs = none)
      ∧ (∀ idx d, pk.1 = some (idx, d) →
          Ping.HOST_SIDE_MAX_LATENCY_MS < d → smp.latencyMs = none)
      ∧ (smp.latencyMs = none →
          Ping.successSamples res.2.samples = Ping.successSamples st.samples))
    ∧ (∀ idx d, pk.1 = some (idx, d) →
        ∃ r, hst.records.get? idx = some r
          ∧ res.1.records.get? idx = some { r with matched := true }) := by
  subst hres; subst hpk
  constructor
  · refine ⟨_, rfl, rfl, rfl, rfl, rfl, ?_, ?_, ?_⟩
    · intro hnone
      simp only [Ping.hostSideRcvdStep, hnone]
      simp
    · intro idx d hsome hcap
      simp only [Ping.hostSideRcvdStep, hsome]
      simp [if_neg (not_le.mpr hcap)]
    · intro hlat
      exact Ping.successSamples_append_none st.samples _ hlat
  · intro idx d hsome
    exact Ping.pickHostSideSentMatch_marks rcvdSeq
      (some (jsRound (rcvdElapsedSec * 1000))) (some e) hst maxGapMs idx d hsome

/-- C10 witness: with `intervalSec = 10` the match gap is 80000 ms, so a
RCVD 70 s after its same-seq SENT is chosen (delta 70000 ≤ 80000) and the
SENT is consumed, even though 70000 ms exceeds the 60000 ms latency cap. -/
theorem hostSideRcvd_reply_spec_witness :
    ∃ r, Ping.witnessHostState.records.get? 0 = some r
      ∧ (Ping.hostSideRcvdStep none 10 (some 1700000070000) 70 (some 1)
          Ping.witnessHostState Ping.emptyParserState 80000).1.records.get? 0
        = some { r with matched := true } := by
  have hj : jsRound ((70 : ℚ) * 1000) = 70000 := by norm_num [jsRound]
  refine (hostSideRcvd_reply_spec none 10 1700000070000 70 (some 1)
      Ping.witnessHostState Ping.emptyParserState 80000 _ rfl _ rfl).2
    0 70000 ?_
  rw [hj]
  decide

/-- Membership in a conditionally-present block. -/
theorem mem_if_nil {α : Type} (c : Prop) [Decidable c] (l : List α) (a : α) :
    a ∈ (if c then l else []) ↔ c ∧ a ∈ l := by
  split <;> simp_all

/-- C9: the bidirectional classifier returns `no_data` exactly when both
sides have no samples; `bidirectional` exactly when (not `no_data` and)
both sides have a high-latency burst and the overlap ratio is at least
0.4; `device_uplink_dominant` exactly when no earlier case applies and
the device weighted score `p95 + 0.4·max + 6·burstCount` is positive and
at least 1.35 times the host score; symmetrically for
`host_downlink_dominant`; `mixed_or_path_specific` exactly when no earlier
case applies and some side has a burst; `inconclusive` otherwise; and the
`device_only_high_latency` finding is emitted exactly when the device side
has a burst and the host side has none. -/
theorem classifyBidirectionalDirection_spec
    (ds hs : Analyzer.PingSummary) (overlapRatio : ℚ)
    (al : Analyzer.SampleAlignment) :
    (((Analyzer.classifyBidirectionalDirection ds hs overlapRatio).direction
        = .no_data)
      ↔ (ds.sampleCount = 0 ∧ hs.sampleCount = 0))
    ∧ (((Analyzer.classifyBidirectionalDirection ds hs overlapRatio).direction
        = .bidirectional)
      ↔ (¬(ds.sampleCount = 0 ∧ hs.sampleCount = 0)
        ∧ (0 < ds.highLatencyBurstCount ∧ 0 < hs.highLatencyBurstCount
          ∧ overlapRatio ≥ 2/5)))
    ∧ (((Analyzer.classifyBidirectionalDirection ds hs overlapRatio).direction
        = .device_uplink_dominant)
      ↔ (¬(ds.sampleCount = 0 ∧ hs.sampleCount = 0)
        ∧ ¬(0 < ds.highLatencyBurstCount ∧ 0 < hs.highLatencyBurstCount
          ∧ overlapRatio ≥ 2/5)
        ∧ (Analyzer.sideScore ds > 0
          ∧ Analyzer.sideScore ds ≥ Analyzer.sideScore hs * (27/20))))
    ∧ (((Analyzer.classifyBidirectionalDirection ds hs overlapRatio).direction
        = .host_downlink_dominant)
      ↔ (¬(ds.sampleCount = 0 ∧ hs.sampleCount = 0)
        ∧ ¬(0 < ds.highLatencyBurstCount ∧ 0 < hs.highLatencyBurstCount
          ∧ overlapRatio ≥ 2/5)
        ∧ ¬(Analyzer.sideScore ds > 0
          ∧ Analyzer.sideScore ds ≥ Analyzer.sideScore hs * (27/20))
        ∧ (Analyzer.sideScore hs > 0
          ∧ Analyzer.sideScore hs ≥ Analyzer.sideScore ds * (27/20))))
    ∧ (((Analyzer.classifyBidirectionalDirection ds hs overlapRatio).direction
        = .mixed_or_path_specific)
      ↔ (¬(ds.sampleCount = 0 ∧ hs.sampleCount = 0)
        ∧ ¬(0 < ds.highLatencyBurstCount ∧ 0 < hs.highLatencyBurstCount
          ∧ overlapRatio ≥ 2/5)
        ∧ ¬(Analyzer.sideScore ds > 0
          ∧ Analyzer.sideScore ds ≥ Analyzer.sideScore hs * (27/20))
        ∧ ¬(Analyzer.sideScore hs > 0
          ∧ Analyzer.sideScore hs ≥ Analyzer.sideScore ds * (27/20))
        ∧ (0 < ds.highLatencyBurstCount ∨ 0 < hs.highLatencyBurstCount)))
    ∧ (((Analyzer.classifyBidirectionalDirection ds hs overlapRatio).direction
        = .inconclusive)
      ↔ (¬(ds.sampleCount = 0 ∧ hs.sampleCount = 0)
        ∧ ¬(0 < ds.highLatencyBurstCount ∧ 0 < hs.highLatencyBurstCount
          ∧ overlapRatio ≥ 2/5)
        ∧ ¬(Analyzer.sideScore ds > 0
          ∧ Analyzer.sideScore ds ≥ Analyzer.sideScore hs * (27/20))
        ∧ ¬(Analyzer.sideScore hs > 0
          ∧ Analyzer.sideScore hs ≥ Analyzer.sideScore ds * (27/20))
        ∧ ¬(0 < ds.highLatencyBurstCount ∨ 0 < hs.highLatencyBurstCount)))
    ∧ (({ ftype := .device_only_high_latency, level := .medium }
          : Analyzer.Finding)
        ∈ Analyzer.buildBidirectionalFindings ds hs overlapRatio al
      ↔ (0 < ds.highLatencyBurstCount ∧ hs.highLatencyBurstCount = 0)) := by
  have hfind : (({ ftype := .device_only_high_latency, level := .medium }
        : Analyzer.Finding)
      ∈ Analyzer.buildBidirectionalFindings ds hs overlapRatio al
    ↔ (0 < ds.highLatencyBurstCount ∧ hs.highLatencyBurstCount = 0)) := by
    unfold Analyzer.buildBidirectionalFindings
    simp [List.mem_append, mem_if_nil, Analyzer.Finding.mk.injEq]
  by_cases h1 : ds.sampleCount = 0 ∧ hs.sampleCount = 0 <;>
    by_cases h2 : 0 < ds.highLatencyBurstCount
      ∧ 0 < hs.highLatencyBurstCount ∧ overlapRatio ≥ 2/5 <;>
    by_cases h3 : Analyzer.sideScore ds > 0
      ∧ Analyzer.sideScore ds ≥ Analyzer.sideScore hs * (27/20) <;>
    by_cases h4 : Analyzer.sideScore hs > 0
      ∧ Analyzer.sideScore hs ≥ Analyzer.sideScore ds * (27/20) <;>
    by_cases h5 : 0 < ds.highLatencyBurstCount
      ∨ 0 < hs.highLatencyBurstCount <;>
    simp [Analyzer.classifyBidirectionalDirection, h1, h2, h3, h4, h5, hfind]

/-- C9 witness (Scenario F): device side with 3 bursts, p95 = 40 ms,
max = 120 ms versus host side with 0 bursts, p95 = 15 ms (max 20 ms):
device score 106 at least 1.35 times host score 23, so the direction is
`device_uplink_dominant`, and the `device_only_high_latency` finding is
emitted. -/
theorem classifyBidirectionalDirection_spec_witness :
    ((Analyzer.classifyBidirectionalDirection
        { sampleCount := 100, highLatencyBurstCount := 3,
          p95Ms := some 40, maxMs := some 120 }
        { sampleCount := 100, highLatencyBurstCount := 0,
          p95Ms := some 15, maxMs := some 20 }
        0).direction = .device_uplink_dominant)
    ∧ (({ ftype := .device_only_high_latency, level := .medium }
          : Analyzer.Finding)
        ∈ Analyzer.buildBidirectionalFindings
          { sampleCount := 100, highLatencyBurstCount := 3,
            p95Ms := some 40, maxMs := some 120 }
          { sampleCount := 100, highLatencyBurstCount := 0,
            p95Ms := some 15, maxMs := some 20 }
          0
          { pairedCount := 0, deviceCoverage := 0,
            hostSideCoverage := 0 }) := by
  have h := classifyBidirectionalDirection_spec
    { sampleCount := 100, highLatencyBurstCount := 3,
      p95Ms := some 40, maxMs := some 120 }
    { sampleCount := 100, highLatencyBurstCount := 0,
      p95Ms := some 15, maxMs := some 20 }
    0
    { pairedCount := 0, deviceCoverage := 0, hostSideCoverage := 0 }
  refine ⟨h.2.2.1.mpr ?_, h.2.2.2.2.2.2.mpr ?_⟩
  · refine ⟨by simp, by simp, ?_⟩
    unfold Analyzer.sideScore
    norm_num [jsOr]
  · simp

/-- C8 witness: one valid window `[100000 ms, 200000 ms]` with the default
buffers (5 s / 10 s / 2 s) inside the capture range `[0, 1000000]`. -/
theorem buildEffectiveWindows_spec_witness :
    (StreamPhase.mergedWindows
        [{ id := 1, startTs := 100000, endTs := 200000 }]
        5000 10000 2000 (some 0) (some 1000000)).Chain'
      (fun u v => u.endTs < v.startTs) :=
  (buildEffectiveWindows_spec
    [{ id := 1, startTs := 100000, endTs := 200000 }] 5 10 2
    5000 10000 2000 (by norm_num) (by norm_num) (by norm_num)
    0 1000000 (by norm_num)).2.1

/-- C1: every cause emitted by `buildCauseRanking` carries
`score = clamp01(0.5*overlap + 0.3*leadLag + 0.2*intensity)`, multiplied
by 0.7 exactly when the analysis is degraded; its level is `high` iff the
emitted score is at least 0.70, `medium` iff it lies in [0.45, 0.70), and
`low` iff it is below 0.45; and a degraded analysis forces the emitted
confidence to `low`. -/
theorem buildCauseRanking_score_spec (inp : Analyzer.CauseInputs)
    (e : Analyzer.CauseEntry) (he : e ∈ Analyzer.buildCauseRanking inp) :
    e.score = clamp01 (1/2 * e.overlap + 3/10 * e.leadLag + 1/5 * e.intensity)
        * (if inp.degraded then 7/10 else 1)
    ∧ (e.level = Level.high ↔ 7/10 ≤ e.score)
    ∧ (e.level = Level.medium ↔ 45/100 ≤ e.score ∧ e.score < 7/10)
    ∧ (e.level = Level.low ↔ e.score < 45/100)
    ∧ (inp.degraded = true → e.confidence = Level.low) := by
  obtain ⟨c, o, l, i, p, f, rfl⟩ := Analyzer.mem_buildCauseRanking inp e he
  cases hd : inp.degraded
  · refine ⟨?_, ?_, ?_, ?_, ?_⟩ <;>
      simp [Analyzer.mkCauseEntry, Analyzer.scoreToLevel_high_iff,
        Analyzer.scoreToLevel_medium_iff, Analyzer.scoreToLevel_low_iff,
        computeScore]
  · refine ⟨?_, ?_, ?_, ?_, ?_⟩ <;>
      simp [Analyzer.mkCauseEntry, Analyzer.scoreToLevel_high_iff,
        Analyzer.scoreToLevel_medium_iff, Analyzer.scoreToLevel_low_iff,
        computeScore]

/-- C1 witness: the head entry of the empty-input ranking satisfies the
score, level and confidence characterisation. -/
theorem buildCauseRanking_score_spec_witness :
    (Analyzer.networkEntry0 ∈
        Analyzer.buildCauseRanking Analyzer.emptyCauseInputs)
    ∧ (Analyzer.networkEntry0.score =
        clamp01 (1/2 * Analyzer.networkEntry0.overlap
            + 3/10 * Analyzer.networkEntry0.leadLag
            + 1/5 * Analyzer.networkEntry0.intensity)
          * (if Analyzer.emptyCauseInputs.degraded then 7/10 else 1)
      ∧ (Analyzer.networkEntry0.level = Level.high ↔
          7/10 ≤ Analyzer.networkEntry0.score)
      ∧ (Analyzer.networkEntry0.level = Level.medium ↔
          45/100 ≤ Analyzer.networkEntry0.score
            ∧ Analyzer.networkEntry0.score < 7/10)
      ∧ (Analyzer.networkEntry0.level = Level.low ↔
          Analyzer.networkEntry0.score < 45/100)
      ∧ (Analyzer.emptyCauseInputs.degraded = true →
          Analyzer.networkEntry0.confidence = Level.low)) :=
  ⟨Analyzer.network_entry_mem_empty,
   buildCauseRanking_score_spec Analyzer.emptyCauseInputs
     Analyzer.networkEntry0 Analyzer.network_entry_mem_empty⟩

/-- C2 counterexample: the claim states that every emitted cause carries at
least 3 evidence rows; on an empty capture (no ping samples, no app
samples, no anomalies, no reference timestamp) all four causes carry zero
evidence rows. -/
theorem buildCauseRanking_evidence_counterexample :
    (Analyzer.buildCauseRanking Analyzer.emptyCauseInputs).map
        (fun e => e.evidence.length) = [0, 0, 0, 0] := by
  rw [Analyzer.buildCauseRanking_empty_eval]
  rfl

/-- C2 (amended): every cause emitted by `buildCauseRanking` carries at
most 5 evidence rows (at least 3 is not guaranteed: both evidence pools
may be too small), the rows deduplicate on the key `(ts, metric, detail)`,
and the fallback rows are consulted only when the primary pass yields
fewer than `minCount = 3` rows. -/
theorem buildCauseRanking_evidence_spec (inp : Analyzer.CauseInputs)
    (e : Analyzer.CauseEntry) (he : e ∈ Analyzer.buildCauseRanking inp)
    (p f : List Analyzer.EvidenceRow)
    (hp : 3 ≤ (Analyzer.ensureEvidenceRowsGo 5 [] p).length) :
    e.evidence.length ≤ 5
    ∧ (e.evidence.map Analyzer.rowKey).Nodup
    ∧ Analyzer.ensureEvidenceRows p f 3 5 =
        Analyzer.ensureEvidenceRowsGo 5 [] p := by
  obtain ⟨c, o, l, i, p', f', rfl⟩ := Analyzer.mem_buildCauseRanking inp e he
  refine ⟨?_, ?_, Analyzer.ensureEvidenceRows_primary_only p f 3 5 hp⟩
  · simpa [Analyzer.mkCauseEntry] using
      (Analyzer.ensureEvidenceRows_le_nodup p' f' 3 5).1
  · simpa [Analyzer.mkCauseEntry] using
      (Analyzer.ensureEvidenceRows_le_nodup p' f' 3 5).2

/-- C2 witness: the head entry of the empty-input ranking has at most 5
key-distinct evidence rows, and a primary list of three distinct rows is
served without consulting the fallback list. -/
theorem buildCauseRanking_evidence_spec_witness :
    (Analyzer.networkEntry0 ∈
        Analyzer.buildCauseRanking Analyzer.emptyCauseInputs)
    ∧ 3 ≤ (Analyzer.ensureEvidenceRowsGo 5 []
        Analyzer.witnessEvidenceRows).length
    ∧ (Analyzer.networkEntry0.evidence.length ≤ 5
      ∧ (Analyzer.networkEntry0.evidence.map Analyzer.rowKey).Nodup
      ∧ Analyzer.ensureEvidenceRows Analyzer.witnessEvidenceRows [] 3 5 =
          Analyzer.ensureEvidenceRowsGo 5 [] Analyzer.witnessEvidenceRows) :=
  ⟨Analyzer.network_entry_mem_empty, by decide,
   buildCauseRanking_evidence_spec Analyzer.emptyCauseInputs
     Analyzer.networkEntry0 Analyzer.network_entry_mem_empty
     Analyzer.witnessEvidenceRows [] (by decide)⟩

end IqooDebug
